import Mathlib

/-!
Verification of the `p2p-node` download orchestration core.

This file shallowly embeds the relevant parts of `src/p2p-node/src/main.rs`,
`src/p2p-node/src/notify.rs` and `src/p2p-node/src/chunk_strategy.rs`:

* Rust `HashMap<String, _>` values are modelled as association lists with
  unique keys (`alistLookup` / `alistInsert` / `alistRemove`); a snapshot's
  iteration order is an explicit input.
* The iroh download progress stream (`DownloadProgessItem`) is modelled as a
  list of `DLEvent` values consumed in order; the outcomes of external calls
  (`stream().await`, `export`, p2p sends, JSON decoding) are oracle inputs.
* `f32` progress percentages are modelled as rationals; the only progress
  values any claim depends on are the literal assignments `0` and `100`.
* Machine integers (`u64`, `usize`) are modelled as `Nat`; the only arithmetic
  performed (`saturating_add` followed by `min`) agrees with `Nat` arithmetic.
-/

set_option autoImplicit false

namespace P2PNode

/-- Association-list lookup, modelling `HashMap::get` for string keys. -/
def alistLookup {α : Type} (m : List (String × α)) (k : String) : Option α :=
  match m with
  | [] => none
  | (k', v) :: rest => if k' = k then some v else alistLookup rest k

/-- Association-list insert-or-replace, modelling `HashMap::insert`. -/
def alistInsert {α : Type} (m : List (String × α)) (k : String) (v : α) :
    List (String × α) :=
  match m with
  | [] => [(k, v)]
  | (k', v') :: rest =>
    if k' = k then (k, v) :: rest else (k', v') :: alistInsert rest k v

/-- Association-list removal, modelling `HashMap::remove`. -/
def alistRemove {α : Type} (m : List (String × α)) (k : String) :
    List (String × α) :=
  match m with
  | [] => []
  | (k', v') :: rest =>
    if k' = k then alistRemove rest k else (k', v') :: alistRemove rest k

/-- Models `map.entry(k).or_insert_with(|| v)` when the entry value is not
subsequently mutated: inserts `v` only when `k` is absent. -/
def alistOrInsert {α : Type} (m : List (String × α)) (k : String) (v : α) :
    List (String × α) :=
  match alistLookup m k with
  | some _ => m
  | none => alistInsert m k v

/-- Models `map.entry(k).or_default()` followed by an in-place mutation `f`
of the entry's vector (the default being the empty vector). -/
def alistUpdate (m : List (String × List String)) (k : String)
    (f : List String → List String) : List (String × List String) :=
  match alistLookup m k with
  | some v => alistInsert m k (f v)
  | none => alistInsert m k (f [])

theorem alistLookup_insert {α : Type} (m : List (String × α)) (k k' : String)
    (v : α) :
    alistLookup (alistInsert m k v) k' =
      if k = k' then some v else alistLookup m k' := by
  induction m with
  | nil => simp [alistInsert, alistLookup]
  | cons hd tl ih =>
    obtain ⟨k₀, v₀⟩ := hd
    by_cases h0 : k₀ = k
    · subst h0
      simp only [alistInsert, if_pos rfl, alistLookup]
      by_cases h1 : k₀ = k'
      · simp [h1]
      · simp [if_neg h1]
    · simp only [alistInsert, if_neg h0, alistLookup]
      by_cases h1 : k₀ = k'
      · subst h1
        have : ¬ k = k₀ := fun h => h0 h.symm
        simp [alistLookup, if_neg this]
      · simp [alistLookup, if_neg h1, ih]

theorem alistLookup_remove {α : Type} (m : List (String × α)) (k k' : String) :
    alistLookup (alistRemove m k) k' =
      if k = k' then none else alistLookup m k' := by
  induction m with
  | nil => simp [alistRemove, alistLookup]
  | cons hd tl ih =>
    obtain ⟨k₀, v₀⟩ := hd
    by_cases h0 : k₀ = k
    · subst h0
      by_cases h1 : k₀ = k'
      · subst h1
        simp [alistRemove, alistLookup, ih]
      · simp [alistRemove, alistLookup, ih, if_neg h1]
    · simp only [alistRemove, if_neg h0, alistLookup]
      by_cases h1 : k₀ = k'
      · subst h1
        have : ¬ k = k₀ := fun h => h0 h.symm
        simp [if_neg this]
      · simp [if_neg h1, ih]

theorem alistLookup_orInsert {α : Type} (m : List (String × α)) (k k' : String)
    (v : α) :
    alistLookup (alistOrInsert m k v) k' =
      if k = k' then some ((alistLookup m k).getD v) else alistLookup m k' := by
  unfold alistOrInsert
  cases h : alistLookup m k with
  | none => simp [alistLookup_insert, h]
  | some w =>
    by_cases h1 : k = k'
    · subst h1
      simp [h]
    · simp [if_neg h1]

theorem alistLookup_update (m : List (String × List String)) (k k' : String)
    (f : List String → List String) :
    alistLookup (alistUpdate m k f) k' =
      if k = k' then some (f ((alistLookup m k).getD []))
      else alistLookup m k' := by
  unfold alistUpdate
  cases h : alistLookup m k with
  | none => simp [alistLookup_insert, h]
  | some w => simp [alistLookup_insert, h]

/-- Model of the `NodeState` struct (`main.rs`), the HTTP-visible transfer
state. `progress : f32` is modelled as a rational. -/
structure NodeState where
  node_name : String
  node_addr : Option String
  has_image : Bool
  current_filename : Option String
  content_type : Option String
  current_hash : Option String
  bytes_total : Option Nat
  bytes_received : Nat
  progress : ℚ
  stripe_providers : List (String × List String)
deriving Repr, DecidableEq

/-- Model of `iroh_blobs::protocol::GetRequest` as far as the orchestrator
observes it: `rangesDebug` stands for the `Debug` rendering of `req.ranges`
(used by `request_key`), and `rangesSingle` for `req.ranges.as_single()`
with the offset and the `Debug` rendering of the single range's chunk set
(used by `describe_request`). -/
structure GetReq where
  hash : String
  rangesDebug : String
  rangesSingle : Option (Nat × String)
deriving Repr, DecidableEq

/-- Model of `request_key` (`main.rs`): `format!("{}::{:?}", req.hash, req.ranges)`. -/
def request_key (req : GetReq) : String :=
  req.hash ++ "::" ++ req.rangesDebug

/-- Model of `describe_request` (`main.rs`). -/
def describe_request (req : GetReq) : String :=
  match req.rangesSingle with
  | some (offset, ranges) => "offset=" ++ toString offset ++ " ranges=" ++ ranges
  | none => "ranges=" ++ req.rangesDebug

/-- Model of `iroh_blobs::api::downloader::DownloadProgessItem`: one event of
a download progress stream. Error payloads are modelled as strings. -/
inductive DLEvent where
  | progress (recvd : Nat)
  | tryProvider (id : String) (request : GetReq)
  | providerFailed (request : GetReq)
  | partComplete (request : GetReq)
  | error (e : String)
  | downloadError
deriving Repr, DecidableEq

/-- Model of the `DownloadProgessItem::Progress(recvd)` arm shared verbatim by
the split and the sequential event loops (`main.rs` lines 493-500, 572-579):
assign `bytes_received` and recompute `progress` only when `bytes_total` is
known and positive. -/
def applyProgress (recvd : Nat) (s : NodeState) : NodeState :=
  let s' := { s with bytes_received := recvd }
  match s'.bytes_total with
  | some t => if 0 < t then { s' with progress := (recvd : ℚ) / (t : ℚ) * 100 } else s'
  | none => s'

/-- Model of the guarded vector push `if !entry.iter().any(|v| v == &label)
\x7b entry.push(label) \x7d`. -/
def pushLabel (ls : List String) (label : String) : List String :=
  if label ∈ ls then ls else ls ++ [label]

/-- Models `label_cache.entry(key).or_insert_with(|| d).clone()`: returns the
cached label (inserting `d` when absent) together with the updated cache. -/
def cacheGet (lab : List (String × String)) (k : String) (d : String) :
    String × List (String × String) :=
  match alistLookup lab k with
  | some v => (v, lab)
  | none => (d, alistInsert lab k d)

/-- Model of the event loop of `NodeShared::attempt_split_download`
(`main.rs` lines 570-610). `own` is `owner_for_request`, `lab` is
`label_cache`. Returns the shared state and `none` on clean stream end, or
`some e` when a terminal `Error`/`DownloadError` event aborted the loop. -/
def splitLoop (events : List DLEvent) (own lab : List (String × String))
    (s : NodeState) : NodeState × Option String :=
  match events with
  | [] => (s, none)
  | e :: rest =>
    match e with
    | .progress r => splitLoop rest own lab (applyProgress r s)
    | .tryProvider id req =>
      let key := request_key req
      splitLoop rest (alistInsert own key id)
        (alistOrInsert lab key (describe_request req)) s
    | .providerFailed req =>
      splitLoop rest (alistRemove own (request_key req)) lab s
    | .partComplete req =>
      let key := request_key req
      match alistLookup own key with
      | some provider =>
        let (label, lab') := cacheGet lab key (describe_request req)
        splitLoop rest own lab'
          { s with stripe_providers :=
              alistUpdate s.stripe_providers provider (fun ls => pushLabel ls label) }
      | none => splitLoop rest own lab s
    | .error e => (s, some e)
    | .downloadError => (s, some "download error")

/-- Result of one orchestrator entry point. `exports` is ghost
instrumentation recording each `store.blobs().export(hash, ..)` invocation
together with its success; it influences neither control flow nor state
beyond what the source does with the export result. -/
structure SplitResult where
  state : NodeState
  err : Option String
  exports : List (String × Bool)
deriving Repr, DecidableEq

/-- Model of the success-path state update at the end of
`attempt_split_download` (`main.rs` lines 614-627). -/
def splitSuccessUpdate (selfId filename content_type : String) (s : NodeState) :
    NodeState :=
  let recvd := s.bytes_received
  { s with
    bytes_total := some recvd,
    has_image := true,
    current_filename := some filename,
    content_type := some content_type,
    progress := 100,
    stripe_providers := alistUpdate s.stripe_providers selfId
      (fun ls => pushLabel ls "all") }

/-- Model of `NodeShared::attempt_split_download` (`main.rs` lines 552-629).
`run` is the outcome of `download_with_opts(..).stream().await` (error, or
the stream's events); `exportOk` is the outcome of the `export` call on the
success path. -/
def attempt_split_download (selfId hash filename content_type : String)
    (providers : List String) (run : Except String (List DLEvent))
    (exportOk : Bool) (s : NodeState) : SplitResult :=
  if providers.isEmpty then
    { state := s, err := some "no providers supplied for split download",
      exports := [] }
  else
    match run with
    | .error e => { state := s, err := some e, exports := [] }
    | .ok events =>
      match splitLoop events [] [] s with
      | (s', some e) => { state := s', err := some e, exports := [] }
      | (s', none) =>
        if exportOk then
          { state := splitSuccessUpdate selfId filename content_type s',
            err := none, exports := [(hash, true)] }
        else
          { state := s', err := some "export failed", exports := [(hash, false)] }

/-- Model of `iroh_base::NodeAddr` as far as the orchestrator observes it:
only the node id (rendered as a string) is ever consulted. -/
structure NodeAddr where
  node_id : String
deriving Repr, DecidableEq

instance : DecidableEq (Except String Unit) := fun a b =>
  match a, b with
  | .ok (), .ok () => isTrue rfl
  | .ok (), .error _ => isFalse fun h => Except.noConfusion h
  | .error _, .ok () => isFalse fun h => Except.noConfusion h
  | .error e, .error f =>
    if h : e = f then isTrue (by rw [h])
    else isFalse fun hh => h (Except.error.inj hh)

/-- Result of `receive_by_discovery`. `result` models the returned
`anyhow::Result<()>`; `exports` is ghost instrumentation recording each
`export` invocation with its success; `seqAttempts` is ghost instrumentation
counting iterations of the sequential fallback loop (one download initiated
per iteration). -/
structure ReceiveResult where
  state : NodeState
  result : Except String Unit
  exports : List (String × Bool)
  seqAttempts : Nat
deriving Repr, DecidableEq

/-- Model of the transfer-state reset at the start of `receive_by_discovery`
(`main.rs` lines 416-426). -/
def resetState (hash filename content_type : String) (s : NodeState) :
    NodeState :=
  { s with
    current_filename := some filename,
    content_type := some content_type,
    current_hash := some hash,
    has_image := false,
    bytes_received := 0,
    bytes_total := none,
    progress := 0,
    stripe_providers := [] }

/-- Model of the partial-progress clearing after a failed split attempt
(`main.rs` lines 466-470). -/
def clearPartialProgress (s : NodeState) : NodeState :=
  { s with
    bytes_received := 0,
    bytes_total := none,
    progress := 0,
    stripe_providers := [] }

/-- Model of the candidate list construction (`main.rs` lines 431-442):
the values of the `peers_addrs` snapshot, then the fallback address when its
node id is not already present. -/
def candidateAddrs (peersAddrs : List (String × NodeAddr))
    (fallback : Option NodeAddr) : List NodeAddr :=
  let base := peersAddrs.map Prod.snd
  match fallback with
  | some na =>
    if base.any (fun addr => addr.node_id = na.node_id) then base
    else base ++ [na]
  | none => base

/-- Model of the node-id deduplication loop (`main.rs` lines 445-453),
preserving first-occurrence order. -/
def candidateNodes (addrs : List NodeAddr) : List String :=
  addrs.foldl
    (fun acc addr => if acc.any (fun pk => pk = addr.node_id) then acc
      else acc ++ [addr.node_id]) []

/-- Model of the per-candidate event loop of the sequential fallback
(`main.rs` lines 491-518). Returns the state, the final `last_provider`,
and `some e` when a terminal error event set `failed` and broke the loop. -/
def seqEventLoop (events : List DLEvent) (lastProvider : Option String)
    (s : NodeState) : NodeState × Option String × Option String :=
  match events with
  | [] => (s, lastProvider, none)
  | e :: rest =>
    match e with
    | .progress r => seqEventLoop rest lastProvider (applyProgress r s)
    | .tryProvider id _ => seqEventLoop rest (some id) s
    | .providerFailed _ => seqEventLoop rest lastProvider s
    | .partComplete _ => seqEventLoop rest lastProvider s
    | .error e => (s, lastProvider, some e)
    | .downloadError => (s, lastProvider, some "download error")

/-- Model of the success-path state update of the sequential fallback
(`main.rs` lines 527-545). -/
def seqSuccessUpdate (selfId filename content_type : String)
    (lastProvider : Option String) (s : NodeState) : NodeState :=
  let recvd := s.bytes_received
  let s' := { s with
    bytes_total := some recvd,
    has_image := true,
    current_filename := some filename,
    content_type := some content_type,
    progress := 100 }
  let sp :=
    match lastProvider with
    | some provider => alistOrInsert s'.stripe_providers provider ["all"]
    | none => s'.stripe_providers
  { s' with stripe_providers := alistUpdate sp selfId (fun ls => pushLabel ls "all") }

/-- Model of the sequential fallback loop of `receive_by_discovery`
(`main.rs` lines 475-549). `runs i` is the outcome of the i-th
`downloader.download(..).stream().await` (counting from `i0`); `exps i` the
outcome of the i-th success-path `export` call, whose result the source
discards (`let _ = ..`). `lastErr` threads the `last_err` variable,
`exportsAcc`/`attempts` the ghost instrumentation. -/
def seqLoop (selfId filename content_type hash : String)
    (runs : Nat → Except String (List DLEvent)) (exps : Nat → Bool)
    (addrs : List NodeAddr) (i0 : Nat) (lastErr : Option String)
    (s : NodeState) (exportsAcc : List (String × Bool)) (attempts : Nat) :
    ReceiveResult :=
  match addrs with
  | [] =>
    { state := s,
      result := .error (lastErr.getD "no provider found for hash"),
      exports := exportsAcc, seqAttempts := attempts }
  | _addr :: rest =>
    match runs i0 with
    | .error e =>
      seqLoop selfId filename content_type hash runs exps rest (i0 + 1)
        (some e) s exportsAcc (attempts + 1)
    | .ok events =>
      match seqEventLoop events none s with
      | (s', _, some e) =>
        seqLoop selfId filename content_type hash runs exps rest (i0 + 1)
          (some e) s' exportsAcc (attempts + 1)
      | (s', lastProvider, none) =>
        { state := seqSuccessUpdate selfId filename content_type lastProvider s',
          result := .ok (),
          exports := exportsAcc ++ [(hash, exps i0)],
          seqAttempts := attempts + 1 }

/-- Model of `NodeShared::receive_by_discovery` (`main.rs` lines 408-550):
reset, candidate construction, split attempt when candidate node ids are
non-empty (clearing partial progress when it fails), then the sequential
fallback. `splitRun`/`splitExportOk` are the split tier's oracle inputs,
`seqRuns`/`seqExps` the sequential tier's (indexed by attempt number). -/
def receive_by_discovery (selfId : String)
    (peersAddrs : List (String × NodeAddr)) (hash filename content_type : String)
    (fallback : Option NodeAddr) (splitRun : Except String (List DLEvent))
    (splitExportOk : Bool) (seqRuns : Nat → Except String (List DLEvent))
    (seqExps : Nat → Bool) (s : NodeState) : ReceiveResult :=
  let s1 := resetState hash filename content_type s
  let addrs := candidateAddrs peersAddrs fallback
  let nodes := candidateNodes addrs
  if nodes.isEmpty then
    seqLoop selfId filename content_type hash seqRuns seqExps addrs 0 none s1 [] 0
  else
    match attempt_split_download selfId hash filename content_type nodes
        splitRun splitExportOk s1 with
    | { state := s', err := none, exports := exps } =>
      { state := s', result := .ok (), exports := exps, seqAttempts := 0 }
    | { state := s', err := some _, exports := exps } =>
      seqLoop selfId filename content_type hash seqRuns seqExps addrs 0 none
        (clearPartialProgress s') exps 0

/-- Model of `NotifyMsg` (`notify.rs`). -/
structure NotifyMsg where
  hash : String
  filename : String
  content_type : String
  provider_node_id : Option String
deriving Repr, DecidableEq

/-- One observable side effect of the notify fan-out: a point-to-point send
attempt (`send_notify`) or an HTTP `POST /receive` to a peer URL. -/
inductive NotifyAction where
  | p2p (url : String)
  | http (url : String)
deriving Repr, DecidableEq

/-- Model of `notify_all_peers` (`main.rs` lines 756-797) as the ordered
trace of send attempts it performs. `addrs` is the snapshot of the
`peers_addrs` map in its iteration order, `peersHttp` the configured peer
URL list and `p2pOk url addr` the outcome of `send_notify` for that entry.
All per-peer errors are swallowed by the source (`let _ = ..`), so the
function is total and returns only the trace. -/
def notify_all_peers (addrs : List (String × NodeAddr))
    (peersHttp : List String) (p2pOk : String → NodeAddr → Bool) :
    List NotifyAction :=
  if addrs.isEmpty then
    peersHttp.map NotifyAction.http
  else
    addrs.foldr
      (fun entry acc =>
        (if p2pOk entry.1 entry.2 then [NotifyAction.p2p entry.1]
         else [NotifyAction.p2p entry.1, NotifyAction.http entry.1]) ++ acc)
      []

/-- The read bound of `NotifyHandler::accept` (`notify.rs` line 45):
`recv.read_to_end(256 * 1024)`. -/
def notifyReadCap : Nat := 256 * 1024

/-- Model of iroh's `RecvStream::read_to_end(limit)`: yields the stream's
bytes, or an error when they exceed `limit`. -/
def read_to_end (limit : Nat) (data : List Nat) : Except String (List Nat) :=
  if data.length > limit then .error "message too long" else .ok data

/-- Observable outcome of one `NotifyHandler::accept` call: whether the
fixed acknowledgment bytes were written to the sender, and whether the
accept itself returned `Ok`. -/
structure AcceptOutcome where
  ackSent : Bool
  ok : Bool
deriving Repr, DecidableEq

/-- Model of `NotifyHandler::accept` (`notify.rs` lines 34-66). `streamData`
is the inbound stream's content; `decode` the outcome of
`serde_json::from_slice` on the read bytes; `parseHash` the outcome of
`msg.hash.parse::<Hash>()`; `orchestrate` the outcome of the triggered
`receive_by_discovery` call (which includes the fallback address derived
from the message's provider identity). Read, decode and hash-parse failures
are propagated as `AcceptError` without an acknowledgment; the orchestration
outcome is only logged. -/
def notifyAccept (streamData : List Nat)
    (decode : List Nat → Except String NotifyMsg)
    (parseHash : String → Except String String)
    (orchestrate : NotifyMsg → Except String Unit) : AcceptOutcome :=
  match read_to_end notifyReadCap streamData with
  | .error _ => { ackSent := false, ok := false }
  | .ok body =>
    match decode body with
    | .error _ => { ackSent := false, ok := false }
    | .ok msg =>
      match parseHash msg.hash with
      | .error _ => { ackSent := false, ok := false }
      | .ok _ =>
        match orchestrate msg with
        | _ => { ackSent := true, ok := true }

/-- Result of the `upload` handler: HTTP status code, the resulting node
state, and the notify fan-out message spawned on success. -/
structure UploadResult where
  status : Nat
  state : NodeState
  notify : Option NotifyMsg
deriving Repr, DecidableEq

/-- Model of the `upload` handler (`main.rs` lines 274-359) after multipart
parsing has assembled the file bytes. Only the byte count is observable by
the state update; `hashStr` is the hash of the stored blob's ticket (an
output of the external blob store). The in-loop 50 MiB guard rejects
exactly the bodies whose total size exceeds the cap. -/
def upload (selfId hashStr : String) (bytesLen : Nat)
    (filename content_type : String) (s : NodeState) : UploadResult :=
  if bytesLen > 50 * 1024 * 1024 then
    { status := 413, state := s, notify := none }
  else if bytesLen = 0 then
    { status := 400, state := s, notify := none }
  else
    { status := 200,
      state := { s with
        has_image := true,
        current_filename := some filename,
        content_type := some content_type,
        bytes_total := some bytesLen,
        bytes_received := bytesLen,
        progress := 100,
        current_hash := some hashStr,
        stripe_providers := [(selfId, ["all"])] },
      notify := some {
        hash := hashStr,
        filename := filename,
        content_type := content_type,
        provider_node_id := some selfId } }

/-- Model of one `GetRequest::blob_ranges(hash, ChunkRanges::chunks(start..stop))`
produced by the chunk strategy: the half-open chunk interval
`[start, stop)` of the blob `hash`. -/
structure ChunkReq where
  hash : String
  start : Nat
  stop : Nat
deriving Repr, DecidableEq

/-- Model of the iterator `(0..total).step_by(span)` (`chunk_strategy.rs`
line 31), unrolled from `cur`: the multiples of `span` starting at `cur`
that are below `total`. Empty when `span = 0` (the source guarantees
`span ≥ 1`). -/
def stepOffsets (total span cur : Nat) : List Nat :=
  if _h : 0 < span ∧ cur < total then
    cur :: stepOffsets total span (cur + span)
  else
    []
termination_by total - cur
decreasing_by omega

/-- Model of `randomized_get_requests_with_rng` (`chunk_strategy.rs` lines
21-42). The RNG shuffle is abstracted as a list transformation `shuffle`;
`rand`'s `shuffle` always produces a permutation, which theorems take as a
hypothesis. `min total (start + span)` models
`min(total_chunks, start.saturating_add(span))` (saturation cannot change
the result of the outer `min`). -/
def randomized_get_requests_with_rng (hash : String)
    (total_chunks stripe_span : Nat) (shuffle : List Nat → List Nat) :
    List ChunkReq :=
  if total_chunks = 0 then []
  else
    let span := max stripe_span 1
    let offsets := shuffle (stepOffsets total_chunks span 0)
    offsets.map (fun start =>
      { hash := hash, start := start, stop := min total_chunks (start + span) })

/-- A terminal event of a download stream (`Error` or `DownloadError`). -/
def isErrEvent : DLEvent → Bool
  | .error _ => true
  | .downloadError => true
  | _ => false

/-- The error carried by the first terminal event of a stream, if any; this
is the error with which either event loop breaks. -/
def firstErr : List DLEvent → Option String
  | [] => none
  | .error e :: _ => some e
  | .downloadError :: _ => some "download error"
  | _ :: rest => firstErr rest

/-- The error with which one sequential attempt fails, if it fails: a
stream-initiation error, or the first terminal event of its stream. -/
def runErr : Except String (List DLEvent) → Option String
  | .error e => some e
  | .ok events => firstErr events

/-- The `last_provider` value accumulated by the sequential event loop:
the id of the most recent `TryProvider` event. -/
def lastTryProvider (init : Option String) : List DLEvent → Option String
  | [] => init
  | .tryProvider id _ :: rest => lastTryProvider (some id) rest
  | _ :: rest => lastTryProvider init rest

/-- How one event transforms the `owner_for_request` map of the split event
loop: `TryProvider` records the assignment, `ProviderFailed` revokes it. -/
def ownersStep (own : List (String × String)) : DLEvent → List (String × String)
  | .tryProvider id req => alistInsert own (request_key req) id
  | .providerFailed req => alistRemove own (request_key req)
  | _ => own

/-- The `owner_for_request` map after a prefix of the split stream. -/
def ownersAfter (events : List DLEvent) : List (String × String) :=
  events.foldl ownersStep []

/-- Checks that every `PartComplete` event in the stream arrives while its
sub-request has a currently recorded owner. -/
def completionsOwned (events : List DLEvent) (own : List (String × String)) :
    Bool :=
  match events with
  | [] => true
  | e :: rest =>
    match e with
    | .partComplete req =>
      (alistLookup own (request_key req)).isSome &&
        completionsOwned rest (ownersStep own e)
    | _ => completionsOwned rest (ownersStep own e)

/-- All requests carried by the events of a stream. -/
def requestsOf : List DLEvent → List GetReq
  | [] => []
  | .tryProvider _ req :: rest => req :: requestsOf rest
  | .providerFailed req :: rest => req :: requestsOf rest
  | .partComplete req :: rest => req :: requestsOf rest
  | _ :: rest => requestsOf rest

/-- A stream is label-coherent when requests with equal `request_key` have
equal `describe_request` — true of the source, where both strings are
derived from the same `ranges` value (the key embeds its full `Debug`
rendering). -/
def labelCoherent (events : List DLEvent) : Prop :=
  ∀ r1 ∈ requestsOf events, ∀ r2 ∈ requestsOf events,
    request_key r1 = request_key r2 → describe_request r1 = describe_request r2

instance (events : List DLEvent) : Decidable (labelCoherent events) := by
  unfold labelCoherent
  infer_instance

/-- A fresh node state, as built at startup (`main.rs` lines 155-159),
used as the concrete starting state of witnesses and counterexamples. -/
def sampleState : NodeState :=
  { node_name := "node", node_addr := some "selfnode", has_image := false,
    current_filename := none, content_type := none, current_hash := none,
    bytes_total := none, bytes_received := 0, progress := 0,
    stripe_providers := [] }

/-- A concrete sub-request covering chunks 0-3, for witnesses. -/
def sampleReq1 : GetReq :=
  { hash := "hashA", rangesDebug := "[0..4)", rangesSingle := some (0, "[0..4)") }

/-- A concrete sub-request covering chunks 4-7, for witnesses. -/
def sampleReq2 : GetReq :=
  { hash := "hashA", rangesDebug := "[4..8)", rangesSingle := some (4, "[4..8)") }

/-- C9: a successful ingest/upload of a non-empty blob of size `n` (within
the handler's 50 MiB cap) resets the transfer state to a
complete-immediately record — completion flag true, bytes received and
total both `n`, progress 100, contribution map attributing the whole blob
to the local node — and triggers the notify fan-out carrying the blob's
hash and the local provider identity. -/
theorem c9_upload_complete_immediately (selfId hashStr : String) (n : Nat)
    (filename content_type : String) (s : NodeState)
    (hpos : 0 < n) (hcap : n ≤ 50 * 1024 * 1024) :
    (upload selfId hashStr n filename content_type s).status = 200 ∧
    (upload selfId hashStr n filename content_type s).state.has_image = true ∧
    (upload selfId hashStr n filename content_type s).state.bytes_received = n ∧
    (upload selfId hashStr n filename content_type s).state.bytes_total = some n ∧
    (upload selfId hashStr n filename content_type s).state.progress = 100 ∧
    (upload selfId hashStr n filename content_type s).state.stripe_providers
      = [(selfId, ["all"])] ∧
    (upload selfId hashStr n filename content_type s).notify
      = some ⟨hashStr, filename, content_type, some selfId⟩ := by
  have h1 : ¬ n > 50 * 1024 * 1024 := by omega
  have h2 : ¬ n = 0 := by omega
  simp [upload, h1, h2]

/-- Witness for C9 at a concrete input. -/
theorem c9_upload_complete_immediately_witness :
    0 < 5 ∧ 5 ≤ 50 * 1024 * 1024 ∧
    (upload "selfnode" "hashA" 5 "pic.png" "image/png" sampleState).status = 200 ∧
    (upload "selfnode" "hashA" 5 "pic.png" "image/png" sampleState).state.bytes_received = 5 :=
  ⟨by decide, by decide,
    (c9_upload_complete_immediately "selfnode" "hashA" 5 "pic.png" "image/png"
      sampleState (by decide) (by decide)).1,
    (c9_upload_complete_immediately "selfnode" "hashA" 5 "pic.png" "image/png"
      sampleState (by decide) (by decide)).2.2.1⟩

/-- The per-entry trace of the non-empty branch of `notify_all_peers`. -/
def notifyEntryTrace (p2pOk : String → NodeAddr → Bool)
    (entry : String × NodeAddr) : List NotifyAction :=
  if p2pOk entry.1 entry.2 then [NotifyAction.p2p entry.1]
  else [NotifyAction.p2p entry.1, NotifyAction.http entry.1]

theorem notifyFold_eq (addrs : List (String × NodeAddr))
    (p2pOk : String → NodeAddr → Bool) :
    addrs.foldr
      (fun entry acc =>
        (if p2pOk entry.1 entry.2 then [NotifyAction.p2p entry.1]
         else [NotifyAction.p2p entry.1, NotifyAction.http entry.1]) ++ acc)
      [] = (addrs.map (notifyEntryTrace p2pOk)).flatten := by
  induction addrs with
  | nil => rfl
  | cons hd tl ih => simp [notifyEntryTrace, ih]

theorem mem_p2p_notifyFold (addrs : List (String × NodeAddr))
    (p2pOk : String → NodeAddr → Bool) (u : String) :
    NotifyAction.p2p u ∈ (addrs.map (notifyEntryTrace p2pOk)).flatten ↔
      ∃ a, (u, a) ∈ addrs := by
  induction addrs with
  | nil => simp
  | cons hd tl ih =>
    obtain ⟨u', a'⟩ := hd
    by_cases h : p2pOk u' a'
    · simp only [List.map_cons, List.flatten_cons, List.mem_append, ih,
        notifyEntryTrace, if_pos h]
      constructor
      · rintro (hm | ⟨a, ha⟩)
        · simp at hm
          exact ⟨a', by simp [hm]⟩
        · exact ⟨a, List.mem_cons_of_mem _ ha⟩
      · rintro ⟨a, ha⟩
        rcases List.mem_cons.mp ha with h0 | h0
        · left
          simp [Prod.ext_iff] at h0
          simp [h0.1]
        · exact Or.inr ⟨a, h0⟩
    · simp only [List.map_cons, List.flatten_cons, List.mem_append, ih,
        notifyEntryTrace, if_neg h]
      constructor
      · rintro (hm | ⟨a, ha⟩)
        · simp at hm
          exact ⟨a', by simp [hm]⟩
        · exact ⟨a, List.mem_cons_of_mem _ ha⟩
      · rintro ⟨a, ha⟩
        rcases List.mem_cons.mp ha with h0 | h0
        · left
          simp [Prod.ext_iff] at h0
          simp [h0.1]
        · exact Or.inr ⟨a, h0⟩

theorem mem_http_notifyFold (addrs : List (String × NodeAddr))
    (p2pOk : String → NodeAddr → Bool) (u : String) :
    NotifyAction.http u ∈ (addrs.map (notifyEntryTrace p2pOk)).flatten ↔
      ∃ a, (u, a) ∈ addrs ∧ p2pOk u a = false := by
  induction addrs with
  | nil => simp
  | cons hd tl ih =>
    obtain ⟨u', a'⟩ := hd
    by_cases h : p2pOk u' a'
    · simp only [List.map_cons, List.flatten_cons, List.mem_append, ih,
        notifyEntryTrace, if_pos h]
      constructor
      · rintro (hm | ⟨a, ha, hf⟩)
        · simp at hm
        · exact ⟨a, List.mem_cons_of_mem _ ha, hf⟩
      · rintro ⟨a, ha, hf⟩
        rcases List.mem_cons.mp ha with h0 | h0
        · exfalso
          simp [Prod.ext_iff] at h0
          rw [h0.1, h0.2] at hf
          rw [h] at hf
          exact Bool.noConfusion hf
        · exact Or.inr ⟨a, h0, hf⟩
    · simp only [List.map_cons, List.flatten_cons, List.mem_append, ih,
        notifyEntryTrace, if_neg h]
      constructor
      · rintro (hm | ⟨a, ha, hf⟩)
        · simp at hm
          exact ⟨a', ⟨by simp [hm], by simp [hm, Bool.eq_false_iff.mpr h]⟩⟩
        · exact ⟨a, List.mem_cons_of_mem _ ha, hf⟩
      · rintro ⟨a, ha, hf⟩
        rcases List.mem_cons.mp ha with h0 | h0
        · left
          simp [Prod.ext_iff] at h0
          simp [h0.1]
        · exact Or.inr ⟨a, h0, hf⟩

/-- C7: for every notify fan-out invocation, when the peer-address
directory snapshot is empty, the trace is exactly one HTTP notification per
statically configured peer URL and no point-to-point attempt; otherwise a
point-to-point send is attempted for exactly the directory entries, and an
HTTP notification to a peer is sent exactly when some directory entry for
that peer's URL had a failing point-to-point send. All per-peer errors are
swallowed (the model is a total function returning only the trace). -/
theorem c7_notify_fanout_trace (addrs : List (String × NodeAddr))
    (peersHttp : List String) (p2pOk : String → NodeAddr → Bool) :
    (addrs = [] →
      notify_all_peers addrs peersHttp p2pOk = peersHttp.map NotifyAction.http ∧
      (∀ u, NotifyAction.p2p u ∉ notify_all_peers addrs peersHttp p2pOk) ∧
      (peersHttp.Nodup → ∀ u ∈ peersHttp,
        (notify_all_peers addrs peersHttp p2pOk).count (NotifyAction.http u) = 1)) ∧
    (addrs ≠ [] →
      (∀ u, NotifyAction.p2p u ∈ notify_all_peers addrs peersHttp p2pOk ↔
        ∃ a, (u, a) ∈ addrs) ∧
      (∀ u, NotifyAction.http u ∈ notify_all_peers addrs peersHttp p2pOk ↔
        ∃ a, (u, a) ∈ addrs ∧ p2pOk u a = false)) := by
  constructor
  · intro h
    subst h
    refine ⟨by simp [notify_all_peers], ?_, ?_⟩
    · intro u hu
      simp [notify_all_peers] at hu
    · intro hnd u hu
      have hinj : Function.Injective NotifyAction.http := by
        intro a b hab
        exact NotifyAction.http.inj hab
      simp only [notify_all_peers, List.isEmpty_nil, if_pos]
      rw [List.count_map_of_injective _ _ hinj]
      exact List.count_eq_one_of_mem hnd hu
  · intro h
    have hne : addrs.isEmpty = false := by
      cases addrs with
      | nil => exact absurd rfl h
      | cons hd tl => rfl
    constructor
    · intro u
      rw [show notify_all_peers addrs peersHttp p2pOk
          = (addrs.map (notifyEntryTrace p2pOk)).flatten by
        simp only [notify_all_peers, hne, Bool.false_eq_true, if_false]
        exact notifyFold_eq addrs p2pOk]
      exact mem_p2p_notifyFold addrs p2pOk u
    · intro u
      rw [show notify_all_peers addrs peersHttp p2pOk
          = (addrs.map (notifyEntryTrace p2pOk)).flatten by
        simp only [notify_all_peers, hne, Bool.false_eq_true, if_false]
        exact notifyFold_eq addrs p2pOk]
      exact mem_http_notifyFold addrs p2pOk u

/-- Witness for C7: Scenario D (empty directory, one configured URL) and a
two-entry directory where only the second point-to-point send fails. -/
theorem c7_notify_fanout_trace_witness :
    ([] : List (String × NodeAddr)) = [] ∧
    (notify_all_peers [] ["http://peer1"] (fun _ _ => true)
      = ["http://peer1"].map NotifyAction.http) ∧
    (NotifyAction.http "u2" ∈
      notify_all_peers [("u1", ⟨"P1"⟩), ("u2", ⟨"P2"⟩)] []
        (fun u _ => u = "u1") ↔
      ∃ a, ("u2", a) ∈ [("u1", ⟨"P1"⟩), ("u2", ⟨"P2"⟩)] ∧
        (fun (u : String) (_ : NodeAddr) => decide (u = "u1")) "u2" a = false) :=
  ⟨rfl,
    ((c7_notify_fanout_trace [] ["http://peer1"] (fun _ _ => true)).1 rfl).1,
    ((c7_notify_fanout_trace [("u1", ⟨"P1"⟩), ("u2", ⟨"P2"⟩)] []
      (fun u _ => decide (u = "u1"))).2 (by decide)).2 "u2"⟩

/-- C8: the notify receive handler reads at most 256 KiB from the inbound
stream (a longer stream fails the accept before any decode), and whenever
the read message decodes and its content hash parses, the fixed
acknowledgment is written and the accept returns Ok for every possible
orchestration outcome — an orchestration failure is never surfaced as a
protocol-level error. -/
theorem c8_notify_accept_ack (streamData : List Nat)
    (decode : List Nat → Except String NotifyMsg)
    (parseHash : String → Except String String)
    (orchestrate : NotifyMsg → Except String Unit) :
    (notifyReadCap < streamData.length →
      notifyAccept streamData decode parseHash orchestrate
        = { ackSent := false, ok := false }) ∧
    (∀ msg h, streamData.length ≤ notifyReadCap →
      decode streamData = .ok msg → parseHash msg.hash = .ok h →
      (notifyAccept streamData decode parseHash orchestrate).ackSent = true ∧
      (notifyAccept streamData decode parseHash orchestrate).ok = true) := by
  constructor
  · intro hlong
    have : read_to_end notifyReadCap streamData = .error "message too long" := by
      simp [read_to_end]
      omega
    simp [notifyAccept, this]
  · intro msg h hlen hdec hhash
    have hread : read_to_end notifyReadCap streamData = .ok streamData := by
      simp [read_to_end]
      omega
    cases horch : orchestrate msg <;>
      simp [notifyAccept, hread, hdec, hhash, horch]

/-- Witness for C8 at a concrete input whose orchestration fails. -/
theorem c8_notify_accept_ack_witness :
    [7, 8].length ≤ notifyReadCap ∧
    (notifyAccept [7, 8]
      (fun _ => .ok ⟨"hashA", "f", "ct", none⟩)
      (fun hs => .ok hs)
      (fun _ => .error "orchestration failed")).ackSent = true :=
  ⟨by decide,
    ((c8_notify_accept_ack [7, 8]
      (fun _ => .ok ⟨"hashA", "f", "ct", none⟩)
      (fun hs => .ok hs)
      (fun _ => .error "orchestration failed")).2
      ⟨"hashA", "f", "ct", none⟩ "hashA" (by decide) rfl rfl).1⟩

/-- C2 counterexample: the stored bytes-received value is overwritten, not
maximised. Feeding the split event loop a progress event of 10 and then an
out-of-order smaller progress event of 5 leaves `bytes_received = 5`,
strictly below the previously stored 10 — the claimed
`max(current, incoming)` update would have kept 10. The sequential loop
shares the identical `Progress` arm. -/
theorem c2_counterexample :
    (splitLoop [DLEvent.progress 10] [] [] sampleState).1.bytes_received = 10 ∧
    (splitLoop [DLEvent.progress 10, DLEvent.progress 5] [] []
      sampleState).1.bytes_received = 5 ∧
    ¬ (5 : Nat) = max 10 5 := by
  refine ⟨rfl, rfl, by decide⟩

/-- C2 as amended: for every progress event, both event loops set the stored
bytes-received field to the incoming value unconditionally (so an
out-of-order smaller value decreases it), and the progress percentage is
recomputed only when the total size is known and positive (left untouched
when the total is unknown or zero). -/
theorem c2_progress_update_amended (r : Nat) (rest : List DLEvent)
    (own lab : List (String × String)) (lp : Option String) (s : NodeState) :
    splitLoop (DLEvent.progress r :: rest) own lab s
      = splitLoop rest own lab (applyProgress r s) ∧
    seqEventLoop (DLEvent.progress r :: rest) lp s
      = seqEventLoop rest lp (applyProgress r s) ∧
    (applyProgress r s).bytes_received = r ∧
    (applyProgress r s).bytes_total = s.bytes_total ∧
    (s.bytes_total = none → (applyProgress r s).progress = s.progress) ∧
    (s.bytes_total = some 0 → (applyProgress r s).progress = s.progress) ∧
    (∀ t, s.bytes_total = some t → 0 < t →
      (applyProgress r s).progress = (r : ℚ) / (t : ℚ) * 100) := by
  refine ⟨rfl, rfl, ?_, ?_, ?_, ?_, ?_⟩
  · cases h : s.bytes_total with
    | none => simp [applyProgress, h]
    | some t =>
      by_cases ht : 0 < t <;> simp [applyProgress, h, ht]
  · cases h : s.bytes_total with
    | none => simp [applyProgress, h]
    | some t =>
      by_cases ht : 0 < t <;> simp [applyProgress, h, ht]
  · intro h
    simp [applyProgress, h]
  · intro h
    simp [applyProgress, h]
  · intro t h ht
    simp [applyProgress, h, ht]

/-- Witness for C2's amended statement at a concrete state with a known
positive total. -/
theorem c2_progress_update_amended_witness :
    ({ sampleState with bytes_total := some 8 } : NodeState).bytes_total = some 8 ∧
    (applyProgress 4 { sampleState with bytes_total := some 8 }).bytes_received = 4 ∧
    (applyProgress 4 { sampleState with bytes_total := some 8 }).progress
      = (4 : ℚ) / (8 : ℚ) * 100 :=
  ⟨rfl,
    (c2_progress_update_amended 4 [] [] [] none
      { sampleState with bytes_total := some 8 }).2.2.1,
    (c2_progress_update_amended 4 [] [] [] none
      { sampleState with bytes_total := some 8 }).2.2.2.2.2.2 8 rfl (by decide)⟩

theorem applyProgress_sp (r : Nat) (s : NodeState) :
    (applyProgress r s).stripe_providers = s.stripe_providers := by
  unfold applyProgress
  cases s.bytes_total with
  | none => rfl
  | some t =>
    by_cases ht : 0 < t <;> simp [ht]

theorem seqEventLoop_err (events : List DLEvent) (lp : Option String)
    (s : NodeState) :
    (seqEventLoop events lp s).2.2 = firstErr events := by
  induction events generalizing lp s with
  | nil => rfl
  | cons e rest ih =>
    cases e <;> simp [seqEventLoop, firstErr, ih]

theorem seqEventLoop_sp (events : List DLEvent) (lp : Option String)
    (s : NodeState) :
    (seqEventLoop events lp s).1.stripe_providers = s.stripe_providers := by
  induction events generalizing lp s with
  | nil => rfl
  | cons e rest ih =>
    cases e with
    | progress r => rw [seqEventLoop, ih, applyProgress_sp]
    | tryProvider id req => rw [seqEventLoop, ih]
    | providerFailed req => rw [seqEventLoop, ih]
    | partComplete req => rw [seqEventLoop, ih]
    | error m => rfl
    | downloadError => rfl

theorem seqEventLoop_lastProvider (events : List DLEvent) (lp : Option String)
    (s : NodeState) (h : firstErr events = none) :
    (seqEventLoop events lp s).2.1 = lastTryProvider lp events := by
  induction events generalizing lp s with
  | nil => rfl
  | cons e rest ih =>
    cases e with
    | progress r =>
      have h' : firstErr rest = none := by simpa [firstErr] using h
      simp only [seqEventLoop, lastTryProvider]
      exact ih _ _ h'
    | tryProvider id req =>
      have h' : firstErr rest = none := by simpa [firstErr] using h
      simp only [seqEventLoop, lastTryProvider]
      exact ih _ _ h'
    | providerFailed req =>
      have h' : firstErr rest = none := by simpa [firstErr] using h
      simp only [seqEventLoop, lastTryProvider]
      exact ih _ _ h'
    | partComplete req =>
      have h' : firstErr rest = none := by simpa [firstErr] using h
      simp only [seqEventLoop, lastTryProvider]
      exact ih _ _ h'
    | error m => exact absurd h (by simp [firstErr])
    | downloadError => exact absurd h (by simp [firstErr])

theorem seqLoop_nil (selfId filename content_type hash : String)
    (runs : Nat → Except String (List DLEvent)) (exps : Nat → Bool)
    (i0 : Nat) (lastErr : Option String) (s : NodeState)
    (acc : List (String × Bool)) (att : Nat) :
    seqLoop selfId filename content_type hash runs exps [] i0 lastErr s acc att
      = { state := s, result := .error (lastErr.getD "no provider found for hash"),
          exports := acc, seqAttempts := att } := rfl

theorem seqLoop_cons_streamErr (selfId filename content_type hash : String)
    (runs : Nat → Except String (List DLEvent)) (exps : Nat → Bool)
    (a : NodeAddr) (rest : List NodeAddr) (i0 : Nat) (lastErr : Option String)
    (s : NodeState) (acc : List (String × Bool)) (att : Nat) (e : String)
    (hr : runs i0 = .error e) :
    seqLoop selfId filename content_type hash runs exps (a :: rest) i0 lastErr
        s acc att
      = seqLoop selfId filename content_type hash runs exps rest (i0 + 1)
          (some e) s acc (att + 1) := by
  rw [seqLoop, hr]

theorem seqLoop_cons_evtErr (selfId filename content_type hash : String)
    (runs : Nat → Except String (List DLEvent)) (exps : Nat → Bool)
    (a : NodeAddr) (rest : List NodeAddr) (i0 : Nat) (lastErr : Option String)
    (s s' : NodeState) (acc : List (String × Bool)) (att : Nat)
    (events : List DLEvent) (lp' : Option String) (e : String)
    (hr : runs i0 = .ok events)
    (hsl : seqEventLoop events none s = (s', lp', some e)) :
    seqLoop selfId filename content_type hash runs exps (a :: rest) i0 lastErr
        s acc att
      = seqLoop selfId filename content_type hash runs exps rest (i0 + 1)
          (some e) s' acc (att + 1) := by
  rw [seqLoop, hr]
  simp only [hsl]

theorem seqLoop_cons_success (selfId filename content_type hash : String)
    (runs : Nat → Except String (List DLEvent)) (exps : Nat → Bool)
    (a : NodeAddr) (rest : List NodeAddr) (i0 : Nat) (lastErr : Option String)
    (s s' : NodeState) (acc : List (String × Bool)) (att : Nat)
    (events : List DLEvent) (lp' : Option String)
    (hr : runs i0 = .ok events)
    (hsl : seqEventLoop events none s = (s', lp', none)) :
    seqLoop selfId filename content_type hash runs exps (a :: rest) i0 lastErr
        s acc att
      = { state := seqSuccessUpdate selfId filename content_type lp' s',
          result := .ok (), exports := acc ++ [(hash, exps i0)],
          seqAttempts := att + 1 } := by
  rw [seqLoop, hr]
  simp only [hsl]

theorem seqLoop_attempts_le (selfId filename content_type hash : String)
    (runs : Nat → Except String (List DLEvent)) (exps : Nat → Bool)
    (addrs : List NodeAddr) (i0 : Nat) (lastErr : Option String)
    (s : NodeState) (acc : List (String × Bool)) (att : Nat) :
    (seqLoop selfId filename content_type hash runs exps addrs i0 lastErr s
      acc att).seqAttempts ≤ att + addrs.length := by
  induction addrs generalizing i0 lastErr s att with
  | nil => simp [seqLoop_nil]
  | cons a rest ih =>
    cases hr : runs i0 with
    | error e =>
      rw [seqLoop_cons_streamErr _ _ _ _ _ _ a rest i0 lastErr s acc att e hr]
      have := ih (i0 + 1) (some e) s (att + 1)
      simp only [List.length_cons]
      omega
    | ok events =>
      rcases hsl : seqEventLoop events none s with ⟨s', lp', err⟩
      cases err with
      | some e =>
        rw [seqLoop_cons_evtErr _ _ _ _ _ _ a rest i0 lastErr s s' acc att
          events lp' e hr hsl]
        have := ih (i0 + 1) (some e) s' (att + 1)
        simp only [List.length_cons]
        omega
      | none =>
        rw [seqLoop_cons_success _ _ _ _ _ _ a rest i0 lastErr s s' acc att
          events lp' hr hsl]
        simp only [List.length_cons]
        omega

theorem seqLoop_all_fail (selfId filename content_type hash : String)
    (runs : Nat → Except String (List DLEvent)) (exps : Nat → Bool)
    (addrs : List NodeAddr) (i0 : Nat) (lastErr : Option String)
    (s : NodeState) (acc : List (String × Bool)) (att : Nat)
    (hfail : ∀ j < addrs.length, runErr (runs (i0 + j)) ≠ none) :
    (seqLoop selfId filename content_type hash runs exps addrs i0 lastErr s
      acc att).seqAttempts = att + addrs.length ∧
    (seqLoop selfId filename content_type hash runs exps addrs i0 lastErr s
      acc att).exports = acc ∧
    (seqLoop selfId filename content_type hash runs exps addrs i0 lastErr s
      acc att).state.stripe_providers = s.stripe_providers ∧
    (addrs = [] →
      (seqLoop selfId filename content_type hash runs exps addrs i0 lastErr s
        acc att).result = .error (lastErr.getD "no provider found for hash")) ∧
    (addrs ≠ [] → ∃ e, runErr (runs (i0 + addrs.length - 1)) = some e ∧
      (seqLoop selfId filename content_type hash runs exps addrs i0 lastErr s
        acc att).result = .error e) := by
  induction addrs generalizing i0 lastErr s att with
  | nil =>
    refine ⟨by simp [seqLoop_nil], by simp [seqLoop_nil], by simp [seqLoop_nil],
      fun _ => by simp [seqLoop_nil], fun h => absurd rfl h⟩
  | cons a rest ih =>
    have h0 : runErr (runs i0) ≠ none := by
      have := hfail 0 (by simp)
      simpa using this
    have hrest : ∀ j < rest.length, runErr (runs (i0 + 1 + j)) ≠ none := by
      intro j hj
      have := hfail (j + 1) (by simp; omega)
      have harith : i0 + (j + 1) = i0 + 1 + j := by omega
      rwa [harith] at this
    have harith : i0 + 1 + rest.length - 1 = i0 + (a :: rest).length - 1 := by
      simp only [List.length_cons]
      omega
    cases hr : runs i0 with
    | error e =>
      rw [seqLoop_cons_streamErr _ _ _ _ _ _ a rest i0 lastErr s acc att e hr]
      obtain ⟨ha, hexp, hsp, hemp, hne⟩ := ih (i0 + 1) (some e) s (att + 1) hrest
      refine ⟨by rw [ha]; simp only [List.length_cons]; omega, hexp, hsp,
        fun h => absurd h (by simp), fun _ => ?_⟩
      by_cases hre : rest = []
      · subst hre
        refine ⟨e, ?_, ?_⟩
        · simp [runErr, hr]
        · simpa using hemp rfl
      · obtain ⟨e', he', hres⟩ := hne hre
        exact ⟨e', harith ▸ he', hres⟩
    | ok events =>
      have hfe : ∃ m, firstErr events = some m := by
        cases hfe0 : firstErr events with
        | none => exact absurd (by simp [runErr, hr, hfe0]) h0
        | some m => exact ⟨m, rfl⟩
      obtain ⟨m, hm⟩ := hfe
      rcases hsl : seqEventLoop events none s with ⟨s', lp', err⟩
      have herr : err = some m := by
        have := seqEventLoop_err events none s
        rw [hsl] at this
        simpa [hm] using this
      subst herr
      have hsp' : s'.stripe_providers = s.stripe_providers := by
        have := seqEventLoop_sp events none s
        rw [hsl] at this
        simpa using this
      rw [seqLoop_cons_evtErr _ _ _ _ _ _ a rest i0 lastErr s s' acc att
        events lp' m hr hsl]
      obtain ⟨ha, hexp, hsp, hemp, hne⟩ := ih (i0 + 1) (some m) s' (att + 1) hrest
      refine ⟨by rw [ha]; simp only [List.length_cons]; omega, hexp,
        by rw [hsp, hsp'], fun h => absurd h (by simp), fun _ => ?_⟩
      by_cases hre : rest = []
      · subst hre
        refine ⟨m, ?_, ?_⟩
        · simpa [runErr, hr] using hm
        · simpa using hemp rfl
      · obtain ⟨e', he', hres⟩ := hne hre
        exact ⟨e', harith ▸ he', hres⟩

theorem seqLoop_first_success (selfId filename content_type hash : String)
    (runs : Nat → Except String (List DLEvent)) (exps : Nat → Bool)
    (k : Nat) (addrs : List NodeAddr) (i0 : Nat) (lastErr : Option String)
    (s : NodeState) (acc : List (String × Bool)) (att : Nat)
    (events : List DLEvent) (p : String)
    (hk : k < addrs.length)
    (hfail : ∀ j < k, runErr (runs (i0 + j)) ≠ none)
    (hrun : runs (i0 + k) = .ok events)
    (hne : firstErr events = none)
    (hlp : lastTryProvider none events = some p) :
    (seqLoop selfId filename content_type hash runs exps addrs i0 lastErr s
      acc att).result = .ok () ∧
    (seqLoop selfId filename content_type hash runs exps addrs i0 lastErr s
      acc att).seqAttempts = att + k + 1 ∧
    (seqLoop selfId filename content_type hash runs exps addrs i0 lastErr s
      acc att).exports = acc ++ [(hash, exps (i0 + k))] ∧
    (seqLoop selfId filename content_type hash runs exps addrs i0 lastErr s
      acc att).state.has_image = true ∧
    (seqLoop selfId filename content_type hash runs exps addrs i0 lastErr s
      acc att).state.progress = 100 ∧
    (seqLoop selfId filename content_type hash runs exps addrs i0 lastErr s
      acc att).state.stripe_providers
      = alistUpdate (alistOrInsert s.stripe_providers p ["all"]) selfId
          (fun ls => pushLabel ls "all") := by
  induction k generalizing addrs i0 lastErr s att with
  | zero =>
    cases addrs with
    | nil => exact absurd hk (by simp)
    | cons a rest =>
      rcases hsl : seqEventLoop events none s with ⟨s', lp', err⟩
      have herr : err = none := by
        have := seqEventLoop_err events none s
        rw [hsl] at this
        simpa [hne] using this
      subst herr
      have hsp' : s'.stripe_providers = s.stripe_providers := by
        have := seqEventLoop_sp events none s
        rw [hsl] at this
        simpa using this
      have hlp' : lp' = some p := by
        have := seqEventLoop_lastProvider events none s hne
        rw [hsl] at this
        simp at this
        rw [this, hlp]
      have hrun0 : runs i0 = .ok events := by simpa using hrun
      rw [seqLoop_cons_success _ _ _ _ _ _ a rest i0 lastErr s s' acc att
        events lp' hrun0 hsl]
      subst hlp'
      refine ⟨rfl, rfl, by simp, rfl, rfl, ?_⟩
      simp only [seqSuccessUpdate, hsp']
  | succ k ihk =>
    cases addrs with
    | nil => exact absurd hk (by simp)
    | cons a rest =>
      have h0 : runErr (runs i0) ≠ none := by
        have := hfail 0 (by omega)
        simpa using this
      have hfail' : ∀ j < k, runErr (runs (i0 + 1 + j)) ≠ none := by
        intro j hj
        have := hfail (j + 1) (by omega)
        have harith : i0 + (j + 1) = i0 + 1 + j := by omega
        rwa [harith] at this
      have hrun' : runs (i0 + 1 + k) = .ok events := by
        have harith : i0 + 1 + k = i0 + (k + 1) := by omega
        rwa [harith]
      have hk' : k < rest.length := by
        simp only [List.length_cons] at hk
        omega
      cases hr : runs i0 with
      | error e =>
        rw [seqLoop_cons_streamErr _ _ _ _ _ _ a rest i0 lastErr s acc att e hr]
        have := ihk rest (i0 + 1) (some e) s (att + 1) hk' hfail' hrun'
        obtain ⟨h1, h2, h3, h4, h5, h6⟩ := this
        have hidx : i0 + 1 + k = i0 + (k + 1) := by omega
        refine ⟨h1, by rw [h2]; omega, by rw [h3, hidx], h4, h5, h6⟩
      | ok events0 =>
        have hfe : ∃ m, firstErr events0 = some m := by
          cases hfe0 : firstErr events0 with
          | none => exact absurd (by simp [runErr, hr, hfe0]) h0
          | some m => exact ⟨m, rfl⟩
        obtain ⟨m, hm⟩ := hfe
        rcases hsl : seqEventLoop events0 none s with ⟨s', lp', err⟩
        have herr : err = some m := by
          have := seqEventLoop_err events0 none s
          rw [hsl] at this
          simpa [hm] using this
        subst herr
        have hsp' : s'.stripe_providers = s.stripe_providers := by
          have := seqEventLoop_sp events0 none s
          rw [hsl] at this
          simpa using this
        rw [seqLoop_cons_evtErr _ _ _ _ _ _ a rest i0 lastErr s s' acc att
          events0 lp' m hr hsl]
        have := ihk rest (i0 + 1) (some m) s' (att + 1) hk' hfail' hrun'
        obtain ⟨h1, h2, h3, h4, h5, h6⟩ := this
        have hidx : i0 + 1 + k = i0 + (k + 1) := by omega
        refine ⟨h1, by rw [h2]; omega, by rw [h3, hidx], h4, h5, ?_⟩
        rw [h6, hsp']

theorem receive_nodes_empty (selfId : String)
    (peersAddrs : List (String × NodeAddr)) (hash filename content_type : String)
    (fallback : Option NodeAddr) (splitRun : Except String (List DLEvent))
    (splitExportOk : Bool) (seqRuns : Nat → Except String (List DLEvent))
    (seqExps : Nat → Bool) (s : NodeState)
    (hnodes : (candidateNodes (candidateAddrs peersAddrs fallback)).isEmpty = true) :
    receive_by_discovery selfId peersAddrs hash filename content_type fallback
        splitRun splitExportOk seqRuns seqExps s
      = seqLoop selfId filename content_type hash seqRuns seqExps
          (candidateAddrs peersAddrs fallback) 0 none
          (resetState hash filename content_type s) [] 0 := by
  unfold receive_by_discovery
  simp only [hnodes, if_true]

theorem receive_split_ok (selfId : String)
    (peersAddrs : List (String × NodeAddr)) (hash filename content_type : String)
    (fallback : Option NodeAddr) (splitRun : Except String (List DLEvent))
    (splitExportOk : Bool) (seqRuns : Nat → Except String (List DLEvent))
    (seqExps : Nat → Bool) (s s' : NodeState) (exps : List (String × Bool))
    (hnodes : (candidateNodes (candidateAddrs peersAddrs fallback)).isEmpty = false)
    (hsp : attempt_split_download selfId hash filename content_type
        (candidateNodes (candidateAddrs peersAddrs fallback)) splitRun
        splitExportOk (resetState hash filename content_type s)
      = { state := s', err := none, exports := exps }) :
    receive_by_discovery selfId peersAddrs hash filename content_type fallback
        splitRun splitExportOk seqRuns seqExps s
      = { state := s', result := .ok (), exports := exps, seqAttempts := 0 } := by
  unfold receive_by_discovery
  simp only [hnodes, Bool.false_eq_true, if_false, hsp]

theorem receive_split_err (selfId : String)
    (peersAddrs : List (String × NodeAddr)) (hash filename content_type : String)
    (fallback : Option NodeAddr) (splitRun : Except String (List DLEvent))
    (splitExportOk : Bool) (seqRuns : Nat → Except String (List DLEvent))
    (seqExps : Nat → Bool) (s s' : NodeState) (e : String)
    (exps : List (String × Bool))
    (hnodes : (candidateNodes (candidateAddrs peersAddrs fallback)).isEmpty = false)
    (hsp : attempt_split_download selfId hash filename content_type
        (candidateNodes (candidateAddrs peersAddrs fallback)) splitRun
        splitExportOk (resetState hash filename content_type s)
      = { state := s', err := some e, exports := exps }) :
    receive_by_discovery selfId peersAddrs hash filename content_type fallback
        splitRun splitExportOk seqRuns seqExps s
      = seqLoop selfId filename content_type hash seqRuns seqExps
          (candidateAddrs peersAddrs fallback) 0 none
          (clearPartialProgress s') exps 0 := by
  unfold receive_by_discovery
  simp only [hnodes, Bool.false_eq_true, if_false, hsp]

/-- C4: whenever the split attempt is made (non-empty candidate node set)
and ends with a terminal error, the orchestrator hands the sequential
fallback a state whose partial progress fields are all cleared — bytes
received 0, total unknown, progress 0, contribution map empty — so no
residue of the aborted split attempt is visible to the sequential tier. -/
theorem c4_clear_partial_before_sequential (selfId : String)
    (peersAddrs : List (String × NodeAddr)) (hash filename content_type : String)
    (fallback : Option NodeAddr) (splitRun : Except String (List DLEvent))
    (splitExportOk : Bool) (seqRuns : Nat → Except String (List DLEvent))
    (seqExps : Nat → Bool) (s : NodeState) (e : String)
    (hnodes : (candidateNodes (candidateAddrs peersAddrs fallback)).isEmpty = false)
    (herr : (attempt_split_download selfId hash filename content_type
        (candidateNodes (candidateAddrs peersAddrs fallback)) splitRun
        splitExportOk (resetState hash filename content_type s)).err = some e) :
    ∃ σ : NodeState,
      receive_by_discovery selfId peersAddrs hash filename content_type fallback
          splitRun splitExportOk seqRuns seqExps s
        = seqLoop selfId filename content_type hash seqRuns seqExps
            (candidateAddrs peersAddrs fallback) 0 none σ
            (attempt_split_download selfId hash filename content_type
              (candidateNodes (candidateAddrs peersAddrs fallback)) splitRun
              splitExportOk (resetState hash filename content_type s)).exports 0 ∧
      σ.bytes_received = 0 ∧ σ.bytes_total = none ∧ σ.progress = 0 ∧
      σ.stripe_providers = [] := by
  rcases hr : attempt_split_download selfId hash filename content_type
      (candidateNodes (candidateAddrs peersAddrs fallback)) splitRun
      splitExportOk (resetState hash filename content_type s) with ⟨s', err, exps⟩
  rw [hr] at herr
  simp only at herr
  subst herr
  refine ⟨clearPartialProgress s', ?_, rfl, rfl, rfl, rfl⟩
  rw [receive_split_err selfId peersAddrs hash filename content_type fallback
    splitRun splitExportOk seqRuns seqExps s s' e exps hnodes hr]

/-- Witness for C4 at a concrete input: one candidate, split stream fails. -/
theorem c4_clear_partial_before_sequential_witness :
    ((candidateNodes (candidateAddrs [("u1", ⟨"P1"⟩)] none)).isEmpty = false) ∧
    ((attempt_split_download "selfnode" "hashA" "f" "ct"
        (candidateNodes (candidateAddrs [("u1", ⟨"P1"⟩)] none))
        (.error "split stream failed") true
        (resetState "hashA" "f" "ct" sampleState)).err = some "split stream failed") ∧
    ∃ σ : NodeState,
      receive_by_discovery "selfnode" [("u1", ⟨"P1"⟩)] "hashA" "f" "ct" none
          (.error "split stream failed") true (fun _ => .error "down")
          (fun _ => true) sampleState
        = seqLoop "selfnode" "f" "ct" "hashA" (fun _ => .error "down")
            (fun _ => true) (candidateAddrs [("u1", ⟨"P1"⟩)] none) 0 none σ
            (attempt_split_download "selfnode" "hashA" "f" "ct"
              (candidateNodes (candidateAddrs [("u1", ⟨"P1"⟩)] none))
              (.error "split stream failed") true
              (resetState "hashA" "f" "ct" sampleState)).exports 0 ∧
      σ.bytes_received = 0 ∧ σ.bytes_total = none ∧ σ.progress = 0 ∧
      σ.stripe_providers = [] :=
  ⟨by decide, by decide,
    c4_clear_partial_before_sequential "selfnode" [("u1", ⟨"P1"⟩)] "hashA" "f"
      "ct" none (.error "split stream failed") true (fun _ => .error "down")
      (fun _ => true) sampleState "split stream failed" (by decide) (by decide)⟩

/-- C5: the sequential fallback attempts each candidate at most once in the
given order (the attempt count never exceeds the candidate count); with an
empty candidate set it returns the generic no-provider error after zero
attempts; and when the split tier does not succeed and every one of the `N`
candidates' sequential attempts fails, exactly `N` attempts occur and the
returned failure carries the error of the last attempt. -/
theorem c5_sequential_exhaustion (selfId : String)
    (peersAddrs : List (String × NodeAddr)) (hash filename content_type : String)
    (fallback : Option NodeAddr) (splitRun : Except String (List DLEvent))
    (splitExportOk : Bool) (seqRuns : Nat → Except String (List DLEvent))
    (seqExps : Nat → Bool) (s : NodeState) (addrs : List NodeAddr)
    (haddrs : candidateAddrs peersAddrs fallback = addrs) :
    (receive_by_discovery selfId peersAddrs hash filename content_type fallback
      splitRun splitExportOk seqRuns seqExps s).seqAttempts ≤ addrs.length ∧
    (addrs = [] →
      (receive_by_discovery selfId peersAddrs hash filename content_type
        fallback splitRun splitExportOk seqRuns seqExps s).result
        = .error "no provider found for hash" ∧
      (receive_by_discovery selfId peersAddrs hash filename content_type
        fallback splitRun splitExportOk seqRuns seqExps s).seqAttempts = 0) ∧
    ((candidateNodes addrs = [] ∨
      (attempt_split_download selfId hash filename content_type
        (candidateNodes addrs) splitRun splitExportOk
        (resetState hash filename content_type s)).err ≠ none) →
      (∀ j < addrs.length, runErr (seqRuns j) ≠ none) →
      (receive_by_discovery selfId peersAddrs hash filename content_type
        fallback splitRun splitExportOk seqRuns seqExps s).seqAttempts
        = addrs.length ∧
      (addrs ≠ [] → ∃ e, runErr (seqRuns (addrs.length - 1)) = some e ∧
        (receive_by_discovery selfId peersAddrs hash filename content_type
          fallback splitRun splitExportOk seqRuns seqExps s).result
          = .error e)) := by
  subst haddrs
  refine ⟨?_, ?_, ?_⟩
  · cases hn : (candidateNodes (candidateAddrs peersAddrs fallback)).isEmpty with
    | true =>
      rw [receive_nodes_empty selfId peersAddrs hash filename content_type
        fallback splitRun splitExportOk seqRuns seqExps s hn]
      have := seqLoop_attempts_le selfId filename content_type hash seqRuns
        seqExps (candidateAddrs peersAddrs fallback) 0 none
        (resetState hash filename content_type s) [] 0
      omega
    | false =>
      rcases hr : attempt_split_download selfId hash filename content_type
          (candidateNodes (candidateAddrs peersAddrs fallback)) splitRun
          splitExportOk (resetState hash filename content_type s)
        with ⟨s', err, exps⟩
      cases err with
      | none =>
        rw [receive_split_ok selfId peersAddrs hash filename content_type
          fallback splitRun splitExportOk seqRuns seqExps s s' exps hn hr]
        simp
      | some e =>
        rw [receive_split_err selfId peersAddrs hash filename content_type
          fallback splitRun splitExportOk seqRuns seqExps s s' e exps hn hr]
        have := seqLoop_attempts_le selfId filename content_type hash seqRuns
          seqExps (candidateAddrs peersAddrs fallback) 0 none
          (clearPartialProgress s') exps 0
        omega
  · intro hempty
    have hn : (candidateNodes (candidateAddrs peersAddrs fallback)).isEmpty = true := by
      rw [hempty]
      rfl
    rw [receive_nodes_empty selfId peersAddrs hash filename content_type
      fallback splitRun splitExportOk seqRuns seqExps s hn, hempty]
    exact ⟨by simp [seqLoop_nil], by simp [seqLoop_nil]⟩
  · intro hsplit hfail
    have hall : ∀ j < (candidateAddrs peersAddrs fallback).length,
        runErr (seqRuns (0 + j)) ≠ none := by
      intro j hj
      simpa using hfail j hj
    cases hn : (candidateNodes (candidateAddrs peersAddrs fallback)).isEmpty with
    | true =>
      rw [receive_nodes_empty selfId peersAddrs hash filename content_type
        fallback splitRun splitExportOk seqRuns seqExps s hn]
      obtain ⟨ha, _, _, _, hne⟩ := seqLoop_all_fail selfId filename content_type
        hash seqRuns seqExps (candidateAddrs peersAddrs fallback) 0 none
        (resetState hash filename content_type s) [] 0 hall
      refine ⟨by rw [ha]; omega, fun hne2 => ?_⟩
      obtain ⟨e, he, hres⟩ := hne hne2
      exact ⟨e, by simpa using he, hres⟩
    | false =>
      rcases hsplit with hempty | herr
      · rw [hempty] at hn
        simp at hn
      · rcases hr : attempt_split_download selfId hash filename content_type
            (candidateNodes (candidateAddrs peersAddrs fallback)) splitRun
            splitExportOk (resetState hash filename content_type s)
          with ⟨s', err, exps⟩
        rw [hr] at herr
        simp only at herr
        cases err with
        | none => exact absurd rfl herr
        | some e =>
          rw [receive_split_err selfId peersAddrs hash filename content_type
            fallback splitRun splitExportOk seqRuns seqExps s s' e exps hn hr]
          obtain ⟨ha, _, _, _, hne⟩ := seqLoop_all_fail selfId filename
            content_type hash seqRuns seqExps
            (candidateAddrs peersAddrs fallback) 0 none
            (clearPartialProgress s') exps 0 hall
          refine ⟨by rw [ha]; omega, fun hne2 => ?_⟩
          obtain ⟨e', he', hres⟩ := hne hne2
          exact ⟨e', by simpa using he', hres⟩

/-- Sequential run outcomes used by the C5 witness: both attempts fail at
stream initiation. -/
def c5runs : Nat → Except String (List DLEvent) :=
  fun i => .error (if i = 0 then "e0" else "e1")

/-- Witness for C5 at a concrete input: split stream fails, both candidates
fail sequentially, the reported failure is the last error. -/
theorem c5_sequential_exhaustion_witness :
    runErr (c5runs 0) = some "e0" ∧ runErr (c5runs 1) = some "e1" ∧
    (receive_by_discovery "selfnode" [("u1", ⟨"P1"⟩), ("u2", ⟨"P2"⟩)] "hashA"
      "f" "ct" none (.error "sf") true c5runs (fun _ => true)
      sampleState).seqAttempts = 2 ∧
    (receive_by_discovery "selfnode" [("u1", ⟨"P1"⟩), ("u2", ⟨"P2"⟩)] "hashA"
      "f" "ct" none (.error "sf") true c5runs (fun _ => true)
      sampleState).result = .error "e1" := by
  have h := (c5_sequential_exhaustion "selfnode"
    [("u1", ⟨"P1"⟩), ("u2", ⟨"P2"⟩)] "hashA" "f" "ct" none (.error "sf") true
    c5runs (fun _ => true) sampleState [⟨"P1"⟩, ⟨"P2"⟩] (by decide)).2.2
    (Or.inr (by decide)) (by decide)
  obtain ⟨ha, hne⟩ := h
  obtain ⟨e, he, hres⟩ := hne (by decide)
  have he2 : e = "e1" := by
    have he' : runErr (c5runs 1) = some e := by simpa using he
    have hv : runErr (c5runs 1) = some "e1" := by decide
    rw [hv] at he'
    exact (Option.some.inj he').symm
  subst he2
  exact ⟨by decide, by decide, by simpa using ha, hres⟩

theorem sp_after_first_success (selfId p : String) (hps : p ≠ selfId) :
    alistUpdate (alistOrInsert [] p ["all"]) selfId
      (fun ls => pushLabel ls "all") = [(p, ["all"]), (selfId, ["all"])] := by
  simp [alistOrInsert, alistLookup, alistInsert, alistUpdate, pushLabel, hps]

/-- C6: when the split tier does not succeed, on the first sequential-tier
success (candidate `k`, after `k` failures, with `p` the provider recorded
by the last assignment event of its stream and `p` distinct from the local
node), the orchestrator performs the export for the hash, records the
all-coverage label for `p` and for the local node, marks the transfer
complete with progress 100, returns success, and stops after exactly `k + 1`
attempts; the contribution map is exactly {p: [all], self: [all]}. -/
theorem c6_sequential_first_success (selfId : String)
    (peersAddrs : List (String × NodeAddr)) (hash filename content_type : String)
    (fallback : Option NodeAddr) (splitRun : Except String (List DLEvent))
    (splitExportOk : Bool) (seqRuns : Nat → Except String (List DLEvent))
    (seqExps : Nat → Bool) (s : NodeState) (addrs : List NodeAddr)
    (k : Nat) (events : List DLEvent) (p : String)
    (haddrs : candidateAddrs peersAddrs fallback = addrs)
    (hsplit : candidateNodes addrs = [] ∨
      (attempt_split_download selfId hash filename content_type
        (candidateNodes addrs) splitRun splitExportOk
        (resetState hash filename content_type s)).err ≠ none)
    (hk : k < addrs.length)
    (hfail : ∀ j < k, runErr (seqRuns j) ≠ none)
    (hrun : seqRuns k = .ok events)
    (hne : firstErr events = none)
    (hlp : lastTryProvider none events = some p)
    (hps : p ≠ selfId) :
    (receive_by_discovery selfId peersAddrs hash filename content_type fallback
      splitRun splitExportOk seqRuns seqExps s).result = .ok () ∧
    (receive_by_discovery selfId peersAddrs hash filename content_type fallback
      splitRun splitExportOk seqRuns seqExps s).state.has_image = true ∧
    (receive_by_discovery selfId peersAddrs hash filename content_type fallback
      splitRun splitExportOk seqRuns seqExps s).state.progress = 100 ∧
    (receive_by_discovery selfId peersAddrs hash filename content_type fallback
      splitRun splitExportOk seqRuns seqExps s).state.stripe_providers
      = [(p, ["all"]), (selfId, ["all"])] ∧
    (receive_by_discovery selfId peersAddrs hash filename content_type fallback
      splitRun splitExportOk seqRuns seqExps s).seqAttempts = k + 1 ∧
    ∃ pre, (receive_by_discovery selfId peersAddrs hash filename content_type
      fallback splitRun splitExportOk seqRuns seqExps s).exports
      = pre ++ [(hash, seqExps k)] := by
  subst haddrs
  have hfail0 : ∀ j < k, runErr (seqRuns (0 + j)) ≠ none := by
    intro j hj
    simpa using hfail j hj
  have hrun0 : seqRuns (0 + k) = .ok events := by simpa using hrun
  cases hn : (candidateNodes (candidateAddrs peersAddrs fallback)).isEmpty with
  | true =>
    rw [receive_nodes_empty selfId peersAddrs hash filename content_type
      fallback splitRun splitExportOk seqRuns seqExps s hn]
    obtain ⟨h1, h2, h3, h4, h5, h6⟩ := seqLoop_first_success selfId filename
      content_type hash seqRuns seqExps k
      (candidateAddrs peersAddrs fallback) 0 none
      (resetState hash filename content_type s) [] 0 events p hk hfail0
      hrun0 hne hlp
    refine ⟨h1, h4, h5, ?_, by rw [h2]; omega, ⟨[], by rw [h3]; simp⟩⟩
    rw [h6]
    have hsp0 : (resetState hash filename content_type s).stripe_providers
        = [] := rfl
    rw [hsp0, sp_after_first_success selfId p hps]
  | false =>
    rcases hsplit with hempty | herr
    · rw [hempty] at hn
      simp at hn
    · rcases hr : attempt_split_download selfId hash filename content_type
          (candidateNodes (candidateAddrs peersAddrs fallback)) splitRun
          splitExportOk (resetState hash filename content_type s)
        with ⟨s', err, exps⟩
      rw [hr] at herr
      simp only at herr
      cases err with
      | none => exact absurd rfl herr
      | some e =>
        rw [receive_split_err selfId peersAddrs hash filename content_type
          fallback splitRun splitExportOk seqRuns seqExps s s' e exps hn hr]
        obtain ⟨h1, h2, h3, h4, h5, h6⟩ := seqLoop_first_success selfId
          filename content_type hash seqRuns seqExps k
          (candidateAddrs peersAddrs fallback) 0 none
          (clearPartialProgress s') exps 0 events p hk hfail0 hrun0 hne hlp
        refine ⟨h1, h4, h5, ?_, by rw [h2]; omega, ⟨exps, by rw [h3]; simp⟩⟩
        rw [h6]
        have hsp0 : (clearPartialProgress s').stripe_providers = [] := rfl
        rw [hsp0, sp_after_first_success selfId p hps]

/-- Sequential run outcomes used by the C6 witness: the single candidate
succeeds with provider P1 assigned. -/
def c6runs : Nat → Except String (List DLEvent) :=
  fun _ => .ok [DLEvent.tryProvider "P1" sampleReq1, DLEvent.progress 7]

/-- Witness for C6: Scenario B — split fails with a terminal error, the
sequential attempt against P1 succeeds, contribution becomes
{P1: [all], self: [all]}. -/
theorem c6_sequential_first_success_witness :
    lastTryProvider none [DLEvent.tryProvider "P1" sampleReq1,
      DLEvent.progress 7] = some "P1" ∧
    (receive_by_discovery "selfnode" [("u1", ⟨"P1"⟩)] "hashA" "f" "ct" none
      (.error "sf") true c6runs (fun _ => true) sampleState).result = .ok () ∧
    (receive_by_discovery "selfnode" [("u1", ⟨"P1"⟩)] "hashA" "f" "ct" none
      (.error "sf") true c6runs (fun _ => true)
      sampleState).state.stripe_providers
      = [("P1", ["all"]), ("selfnode", ["all"])] := by
  have h := c6_sequential_first_success "selfnode" [("u1", ⟨"P1"⟩)] "hashA"
    "f" "ct" none (.error "sf") true c6runs (fun _ => true) sampleState
    [⟨"P1"⟩] 0 [DLEvent.tryProvider "P1" sampleReq1, DLEvent.progress 7] "P1"
    (by decide) (Or.inr (by decide)) (by decide) (by decide) rfl
    (by decide) (by decide) (by decide)
  exact ⟨by decide, h.1, h.2.2.2.1⟩

theorem attempt_split_noProviders (selfId hash filename content_type : String)
    (providers : List String) (run : Except String (List DLEvent))
    (exportOk : Bool) (s : NodeState) (hp : providers.isEmpty = true) :
    attempt_split_download selfId hash filename content_type providers run
        exportOk s
      = { state := s, err := some "no providers supplied for split download",
          exports := [] } := by
  unfold attempt_split_download
  simp only [hp, if_true]

theorem attempt_split_streamErr (selfId hash filename content_type : String)
    (providers : List String) (exportOk : Bool) (s : NodeState) (e : String)
    (hp : providers.isEmpty = false) :
    attempt_split_download selfId hash filename content_type providers
        (.error e) exportOk s
      = { state := s, err := some e, exports := [] } := by
  unfold attempt_split_download
  simp only [hp, Bool.false_eq_true, if_false]

theorem attempt_split_loopErr (selfId hash filename content_type : String)
    (providers : List String) (exportOk : Bool) (s s' : NodeState)
    (events : List DLEvent) (e : String)
    (hp : providers.isEmpty = false)
    (hsl : splitLoop events [] [] s = (s', some e)) :
    attempt_split_download selfId hash filename content_type providers
        (.ok events) exportOk s
      = { state := s', err := some e, exports := [] } := by
  unfold attempt_split_download
  simp only [hp, Bool.false_eq_true, if_false, hsl]

theorem attempt_split_exportTrue (selfId hash filename content_type : String)
    (providers : List String) (s s' : NodeState) (events : List DLEvent)
    (hp : providers.isEmpty = false)
    (hsl : splitLoop events [] [] s = (s', none)) :
    attempt_split_download selfId hash filename content_type providers
        (.ok events) true s
      = { state := splitSuccessUpdate selfId filename content_type s',
          err := none, exports := [(hash, true)] } := by
  unfold attempt_split_download
  simp only [hp, Bool.false_eq_true, if_false, hsl, if_true]

theorem attempt_split_exportFalse (selfId hash filename content_type : String)
    (providers : List String) (s s' : NodeState) (events : List DLEvent)
    (hp : providers.isEmpty = false)
    (hsl : splitLoop events [] [] s = (s', none)) :
    attempt_split_download selfId hash filename content_type providers
        (.ok events) false s
      = { state := s', err := some "export failed",
          exports := [(hash, false)] } := by
  unfold attempt_split_download
  simp only [hp, Bool.false_eq_true, if_false, hsl]

theorem splitLoop_has_image (events : List DLEvent)
    (own lab : List (String × String)) (s : NodeState) :
    (splitLoop events own lab s).1.has_image = s.has_image := by
  induction events generalizing own lab s with
  | nil => rfl
  | cons e rest ih =>
    cases e with
    | progress r =>
      rw [splitLoop, ih]
      unfold applyProgress
      cases s.bytes_total with
      | none => rfl
      | some t =>
        by_cases ht : 0 < t <;> simp [ht]
    | tryProvider id req => rw [splitLoop, ih]
    | providerFailed req => rw [splitLoop, ih]
    | partComplete req =>
      rw [splitLoop]
      cases alistLookup own (request_key req) with
      | some provider => rw [ih]
      | none => rw [ih]
    | error m => rfl
    | downloadError => rfl

/-- C3 counterexample: on the sequential tier the export result is
discarded (`let _ = self.store.blobs().export(..)`), so a failed export
still leaves the completion flag set. Concretely: the split stream fails,
the single sequential candidate succeeds, the export oracle reports
failure — yet the orchestrator returns Ok with `has_image = true` while the
ghost export trace records the failed export call. -/
theorem c3_counterexample :
    (receive_by_discovery "selfnode" [("u1", ⟨"P1"⟩)] "hashA" "f" "ct" none
      (.error "sf") true c6runs (fun _ => false) sampleState).exports
      = [("hashA", false)] ∧
    (receive_by_discovery "selfnode" [("u1", ⟨"P1"⟩)] "hashA" "f" "ct" none
      (.error "sf") true c6runs (fun _ => false)
      sampleState).state.has_image = true ∧
    (receive_by_discovery "selfnode" [("u1", ⟨"P1"⟩)] "hashA" "f" "ct" none
      (.error "sf") true c6runs (fun _ => false) sampleState).result
      = .ok () := by
  refine ⟨by decide, by decide, by decide⟩

/-- C3 as amended: on the split-tier success path the completion flag is
set only strictly after a successful export for the hash (a failed
split-tier export leaves the flag at its prior value and aborts with an
error), while on the sequential-tier success path the export for the hash
is attempted before the flag is set but the flag is set regardless of the
export's outcome. -/
theorem c3_export_completion_amended (selfId hash filename content_type : String)
    (providers : List String) (run : Except String (List DLEvent))
    (exportOk : Bool) (s : NodeState) :
    ((attempt_split_download selfId hash filename content_type providers run
        exportOk s).err = none →
      exportOk = true ∧
      (attempt_split_download selfId hash filename content_type providers run
        exportOk s).state.has_image = true ∧
      (attempt_split_download selfId hash filename content_type providers run
        exportOk s).exports = [(hash, true)]) ∧
    (exportOk = false →
      (attempt_split_download selfId hash filename content_type providers run
        exportOk s).state.has_image = s.has_image ∧
      (attempt_split_download selfId hash filename content_type providers run
        exportOk s).err ≠ none) ∧
    (∀ (runs : Nat → Except String (List DLEvent)) (exps : Nat → Bool)
      (k : Nat) (addrs : List NodeAddr) (events : List DLEvent) (p : String),
      k < addrs.length → (∀ j < k, runErr (runs j) ≠ none) →
      runs k = .ok events → firstErr events = none →
      lastTryProvider none events = some p →
      (seqLoop selfId filename content_type hash runs exps addrs 0 none s
        [] 0).state.has_image = true ∧
      (seqLoop selfId filename content_type hash runs exps addrs 0 none s
        [] 0).exports = [(hash, exps k)]) := by
  refine ⟨?_, ?_, ?_⟩
  · intro hok
    cases hp : providers.isEmpty with
    | true =>
      rw [attempt_split_noProviders selfId hash filename content_type
        providers run exportOk s hp] at hok
      simp at hok
    | false =>
      cases run with
      | error e =>
        rw [attempt_split_streamErr selfId hash filename content_type
          providers exportOk s e hp] at hok
        simp at hok
      | ok events =>
        rcases hsl : splitLoop events [] [] s with ⟨s'', errL⟩
        cases errL with
        | some e =>
          rw [attempt_split_loopErr selfId hash filename content_type
            providers exportOk s s'' events e hp hsl] at hok
          simp at hok
        | none =>
          cases exportOk with
          | true =>
            rw [attempt_split_exportTrue selfId hash filename content_type
              providers s s'' events hp hsl]
            exact ⟨rfl, rfl, rfl⟩
          | false =>
            rw [attempt_split_exportFalse selfId hash filename content_type
              providers s s'' events hp hsl] at hok
            simp at hok
  · intro hfalse
    subst hfalse
    cases hp : providers.isEmpty with
    | true =>
      rw [attempt_split_noProviders selfId hash filename content_type
        providers run false s hp]
      exact ⟨rfl, by simp⟩
    | false =>
      cases run with
      | error e =>
        rw [attempt_split_streamErr selfId hash filename content_type
          providers false s e hp]
        exact ⟨rfl, by simp⟩
      | ok events =>
        rcases hsl : splitLoop events [] [] s with ⟨s'', errL⟩
        have hhi := splitLoop_has_image events [] [] s
        rw [hsl] at hhi
        simp only at hhi
        cases errL with
        | some e =>
          rw [attempt_split_loopErr selfId hash filename content_type
            providers false s s'' events e hp hsl]
          exact ⟨hhi, by simp⟩
        | none =>
          rw [attempt_split_exportFalse selfId hash filename content_type
            providers s s'' events hp hsl]
          exact ⟨hhi, by simp⟩
  · intro runs exps k addrs events p hk hfail hrun hne hlp
    have hfail0 : ∀ j < k, runErr (runs (0 + j)) ≠ none := by
      intro j hj
      simpa using hfail j hj
    have hrun0 : runs (0 + k) = .ok events := by simpa using hrun
    obtain ⟨_, _, h3, h4, _, _⟩ := seqLoop_first_success selfId filename
      content_type hash runs exps k addrs 0 none s [] 0 events p hk hfail0
      hrun0 hne hlp
    exact ⟨h4, by rw [h3]; simp⟩

/-- Witness for C3's amended statement: a failed split-tier export leaves
the flag at its prior (false) value, and a sequential-tier success with a
failing export still sets the flag. -/
theorem c3_export_completion_amended_witness :
    (false : Bool) = false ∧
    (attempt_split_download "selfnode" "hashA" "f" "ct" ["P1"]
      (.ok [DLEvent.progress 3]) false sampleState).state.has_image
      = sampleState.has_image ∧
    (seqLoop "selfnode" "f" "ct" "hashA" c6runs (fun _ => false) [⟨"P1"⟩] 0
      none sampleState [] 0).state.has_image = true := by
  have h := c3_export_completion_amended "selfnode" "hashA" "f" "ct" ["P1"]
    (.ok [DLEvent.progress 3]) false sampleState
  refine ⟨rfl, (h.2.1 rfl).1, ?_⟩
  exact (h.2.2 c6runs (fun _ => false) 0 [⟨"P1"⟩]
    [DLEvent.tryProvider "P1" sampleReq1, DLEvent.progress 7] "P1" (by decide)
    (by decide) rfl (by decide) (by decide)).1

theorem stepOffsets_mem_lt (total span : Nat) :
    ∀ cur, ∀ x ∈ stepOffsets total span cur, cur ≤ x ∧ x < total := by
  refine stepOffsets.induct total span
    (fun cur => ∀ x ∈ stepOffsets total span cur, cur ≤ x ∧ x < total) ?_ ?_
  · intro cur h ih x hx
    rw [stepOffsets, dif_pos h] at hx
    rcases List.mem_cons.mp hx with h0 | h0
    · omega
    · have := ih x h0
      omega
  · intro cur h x hx
    rw [stepOffsets, dif_neg h] at hx
    simp at hx

theorem stepOffsets_mem_of (total span : Nat) :
    ∀ cur, ∀ x, 0 < span → cur ≤ x → x < total → span ∣ (x - cur) →
      x ∈ stepOffsets total span cur := by
  refine stepOffsets.induct total span
    (fun cur => ∀ x, 0 < span → cur ≤ x → x < total → span ∣ (x - cur) →
      x ∈ stepOffsets total span cur) ?_ ?_
  · intro cur h ih x hspan hcx hxt hdvd
    rw [stepOffsets, dif_pos h]
    by_cases hx : x = cur
    · simp [hx]
    · have hgt : cur < x := lt_of_le_of_ne hcx (Ne.symm hx)
      have hge : span ≤ x - cur := Nat.le_of_dvd (by omega) hdvd
      refine List.mem_cons_of_mem _ (ih x hspan (by omega) hxt ?_)
      have heq : x - (cur + span) = (x - cur) - span := by omega
      rw [heq]
      exact Nat.dvd_sub' hdvd dvd_rfl
  · intro cur h x hspan hcx hxt _
    exact absurd ⟨hspan, by omega⟩ h

theorem stepOffsets_pairwise (total span : Nat) :
    ∀ cur, (stepOffsets total span cur).Pairwise (fun a b => a + span ≤ b) := by
  refine stepOffsets.induct total span
    (fun cur => (stepOffsets total span cur).Pairwise
      (fun a b => a + span ≤ b)) ?_ ?_
  · intro cur h ih
    rw [stepOffsets, dif_pos h]
    refine List.Pairwise.cons ?_ ih
    intro y hy
    have := stepOffsets_mem_lt total span (cur + span) y hy
    omega
  · intro cur h
    rw [stepOffsets, dif_neg h]
    exact List.Pairwise.nil

/-- C10: for every hash, chunk count, stripe span and shuffle produced by an
RNG (any permutation of the offset list), the requests returned by
`randomized_get_requests_with_rng` carry the blob's hash, each span at most
`max(stripe_span, 1)` chunks, have pairwise disjoint chunk ranges, and their
union is exactly the interval `[0, total_chunks)`; for `total_chunks = 0`
the list is empty. -/
theorem c10_randomized_requests_partition (hash : String)
    (total_chunks stripe_span : Nat) (shuffle : List Nat → List Nat)
    (hperm : (shuffle (stepOffsets total_chunks (max stripe_span 1) 0)).Perm
      (stepOffsets total_chunks (max stripe_span 1) 0)) :
    (total_chunks = 0 →
      randomized_get_requests_with_rng hash total_chunks stripe_span shuffle
        = []) ∧
    (∀ r ∈ randomized_get_requests_with_rng hash total_chunks stripe_span
        shuffle, r.hash = hash ∧ r.stop - r.start ≤ max stripe_span 1) ∧
    (∀ c, (∃ r ∈ randomized_get_requests_with_rng hash total_chunks
        stripe_span shuffle, r.start ≤ c ∧ c < r.stop) ↔ c < total_chunks) ∧
    (randomized_get_requests_with_rng hash total_chunks stripe_span
      shuffle).Pairwise
      (fun r1 r2 => r1.stop ≤ r2.start ∨ r2.stop ≤ r1.start) := by
  by_cases ht : total_chunks = 0
  · subst ht
    refine ⟨fun _ => rfl, ?_, ?_, ?_⟩
    · intro r hr
      simp [randomized_get_requests_with_rng] at hr
    · intro c
      simp [randomized_get_requests_with_rng]
    · simp [randomized_get_requests_with_rng]
  · have hspan : 0 < max stripe_span 1 := by omega
    have hunf : randomized_get_requests_with_rng hash total_chunks stripe_span
        shuffle
        = (shuffle (stepOffsets total_chunks (max stripe_span 1) 0)).map
          (fun start =>
            { hash := hash
              start := start
              stop := min total_chunks (start + max stripe_span 1) }) := by
      unfold randomized_get_requests_with_rng
      simp [ht]
    refine ⟨fun h => absurd h ht, ?_, ?_, ?_⟩
    · intro r hr
      rw [hunf] at hr
      obtain ⟨start, _, rfl⟩ := List.mem_map.mp hr
      refine ⟨rfl, ?_⟩
      simp only
      omega
    · intro c
      constructor
      · rintro ⟨r, hr, hsc, hcs⟩
        rw [hunf] at hr
        obtain ⟨start, _, rfl⟩ := List.mem_map.mp hr
        simp only at hsc hcs
        omega
      · intro hc
        have h1 : (max stripe_span 1) * (c / max stripe_span 1)
            + c % max stripe_span 1 = c := Nat.div_add_mod c _
        have h2 : c % max stripe_span 1 < max stripe_span 1 :=
          Nat.mod_lt _ hspan
        have hole : (max stripe_span 1) * (c / max stripe_span 1) ≤ c := by
          omega
        have hmem : (max stripe_span 1) * (c / max stripe_span 1)
            ∈ stepOffsets total_chunks (max stripe_span 1) 0 := by
          refine stepOffsets_mem_of total_chunks (max stripe_span 1) 0 _
            hspan (Nat.zero_le _) (by omega) ?_
          exact ⟨c / max stripe_span 1, by omega⟩
        have hmem2 : (max stripe_span 1) * (c / max stripe_span 1)
            ∈ shuffle (stepOffsets total_chunks (max stripe_span 1) 0) :=
          (hperm.mem_iff).mpr hmem
        refine ⟨{ hash := hash
                  start := (max stripe_span 1) * (c / max stripe_span 1)
                  stop := min total_chunks
                    ((max stripe_span 1) * (c / max stripe_span 1)
                      + max stripe_span 1) }, ?_, ?_, ?_⟩
        · rw [hunf]
          exact List.mem_map.mpr ⟨_, hmem2, rfl⟩
        · simpa using hole
        · simp only
          omega
    · rw [hunf]
      rw [List.pairwise_map]
      have hgap := stepOffsets_pairwise total_chunks (max stripe_span 1) 0
      have hsh : (shuffle (stepOffsets total_chunks (max stripe_span 1)
          0)).Pairwise (fun a b => a + max stripe_span 1 ≤ b
            ∨ b + max stripe_span 1 ≤ a) := by
        refine hperm.symm.pairwise ?_ ?_
        · exact hgap.imp (fun h => Or.inl h)
        · intro x y hxy
          omega
      refine hsh.imp ?_
      intro a b hab
      simp only
      omega

/-- Witness for C10 with a concrete reversing shuffle. -/
theorem c10_randomized_requests_partition_witness :
    ((fun (l : List Nat) => l.reverse) (stepOffsets 5 (max 2 1) 0)).Perm
      (stepOffsets 5 (max 2 1) 0) ∧
    (∀ c, (∃ r ∈ randomized_get_requests_with_rng "hashA" 5 2
      (fun l => l.reverse), r.start ≤ c ∧ c < r.stop) ↔ c < 5) :=
  ⟨List.reverse_perm _,
    (c10_randomized_requests_partition "hashA" 5 2 (fun l => l.reverse)
      (List.reverse_perm _)).2.2.1⟩

theorem pushLabel_mem_self (ls : List String) (l : String) :
    l ∈ pushLabel ls l := by
  unfold pushLabel
  by_cases h : l ∈ ls
  · simp [h]
  · simp [h]

theorem pushLabel_mem_of (ls : List String) (l x : String) (hx : x ∈ ls) :
    x ∈ pushLabel ls l := by
  unfold pushLabel
  by_cases h : l ∈ ls
  · simpa [h]
  · simp [h, hx]

theorem pushLabel_nodup (ls : List String) (l : String) (h : ls.Nodup) :
    (pushLabel ls l).Nodup := by
  unfold pushLabel
  by_cases hm : l ∈ ls
  · simpa [hm]
  · simp only [hm, if_false]
    rw [List.nodup_append]
    exact ⟨h, List.nodup_singleton l, by simpa using hm⟩

/-- Every per-provider label list of the contribution map is duplicate-free. -/
def NodupSP (s : NodeState) : Prop :=
  ∀ q ls, alistLookup s.stripe_providers q = some ls → ls.Nodup

/-- The label cache only holds the description of some request of `full`
with the matching key. -/
def goodLab (full : List DLEvent) (lab : List (String × String)) : Prop :=
  ∀ key l, alistLookup lab key = some l →
    ∀ r ∈ requestsOf full, request_key r = key → describe_request r = l

theorem requestsOf_append (l1 l2 : List DLEvent) :
    requestsOf (l1 ++ l2) = requestsOf l1 ++ requestsOf l2 := by
  induction l1 with
  | nil => rfl
  | cons e rest ih =>
    cases e <;> simp [requestsOf, ih]

theorem requestsOf_suffix (l1 l2 : List DLEvent) (h : l1 <:+ l2) :
    ∀ r ∈ requestsOf l1, r ∈ requestsOf l2 := by
  obtain ⟨t, rfl⟩ := h
  intro r hr
  rw [requestsOf_append]
  exact List.mem_append_right _ hr

theorem mem_requestsOf_tryProvider (l : List DLEvent) (id : String)
    (req : GetReq) (h : DLEvent.tryProvider id req ∈ l) :
    req ∈ requestsOf l := by
  induction l with
  | nil => simp at h
  | cons e rest ih =>
    rcases List.mem_cons.mp h with h0 | h0
    · rw [← h0]
      simp [requestsOf]
    · cases e <;> simp [requestsOf, ih h0]

theorem mem_requestsOf_partComplete (l : List DLEvent) (req : GetReq)
    (h : DLEvent.partComplete req ∈ l) : req ∈ requestsOf l := by
  induction l with
  | nil => simp at h
  | cons e rest ih =>
    rcases List.mem_cons.mp h with h0 | h0
    · rw [← h0]
      simp [requestsOf]
    · cases e <;> simp [requestsOf, ih h0]

theorem goodLab_orInsert (full : List DLEvent) (lab : List (String × String))
    (r0 : GetReq) (hcoh : labelCoherent full) (hr0 : r0 ∈ requestsOf full)
    (hlab : goodLab full lab) :
    goodLab full (alistOrInsert lab (request_key r0) (describe_request r0)) := by
  intro key l hl r hr hk
  rw [alistLookup_orInsert] at hl
  by_cases hkey : request_key r0 = key
  · rw [if_pos hkey] at hl
    cases hv : alistLookup lab (request_key r0) with
    | some v =>
      rw [hv] at hl
      simp at hl
      subst hl
      exact hlab _ _ (hkey ▸ hv) r hr hk
    | none =>
      rw [hv] at hl
      simp at hl
      subst hl
      exact hcoh r hr r0 hr0 (by rw [hk, hkey])
  · rw [if_neg hkey] at hl
    exact hlab _ _ hl r hr hk

theorem goodLab_cacheGet (full : List DLEvent) (lab : List (String × String))
    (r0 : GetReq) (hcoh : labelCoherent full) (hr0 : r0 ∈ requestsOf full)
    (hlab : goodLab full lab) :
    goodLab full (cacheGet lab (request_key r0) (describe_request r0)).2 := by
  unfold cacheGet
  cases hv : alistLookup lab (request_key r0) with
  | some v => exact hlab
  | none =>
    intro key l hl r hr hk
    rw [alistLookup_insert] at hl
    by_cases hkey : request_key r0 = key
    · rw [if_pos hkey] at hl
      simp at hl
      subst hl
      exact hcoh r hr r0 hr0 (by rw [hk, hkey])
    · rw [if_neg hkey] at hl
      exact hlab _ _ hl r hr hk

theorem cacheGet_label (full : List DLEvent) (lab : List (String × String))
    (req : GetReq) (hreq : req ∈ requestsOf full)
    (hlab : goodLab full lab) :
    (cacheGet lab (request_key req) (describe_request req)).1
      = describe_request req := by
  unfold cacheGet
  cases hv : alistLookup lab (request_key req) with
  | some v =>
    simp only
    exact (hlab _ _ hv req hreq rfl).symm ▸ rfl
  | none => rfl

theorem lookup_update_mem (sp : List (String × List String))
    (provider label p l : String) (ls : List String)
    (h : alistLookup sp p = some ls) (hl : l ∈ ls) :
    ∃ ls', alistLookup (alistUpdate sp provider (fun x => pushLabel x label)) p
      = some ls' ∧ l ∈ ls' := by
  rw [alistLookup_update]
  by_cases hpq : provider = p
  · subst hpq
    rw [if_pos rfl, h]
    simp only [Option.getD_some]
    exact ⟨_, rfl, pushLabel_mem_of _ _ _ hl⟩
  · rw [if_neg hpq]
    exact ⟨ls, h, hl⟩

theorem nodupSP_update (s : NodeState) (provider label : String)
    (h : NodupSP s) :
    NodupSP { s with
      stripe_providers :=
        alistUpdate s.stripe_providers provider
          (fun x => pushLabel x label) } := by
  intro q ls hq
  simp only at hq
  rw [alistLookup_update] at hq
  by_cases hpq : provider = q
  · rw [if_pos hpq] at hq
    have : pushLabel ((alistLookup s.stripe_providers provider).getD []) label
        = ls := by
      simpa using hq
    rw [← this]
    apply pushLabel_nodup
    cases hv : alistLookup s.stripe_providers provider with
    | some v =>
      simpa [hv] using h provider v hv
    | none => simp [hv]
  · rw [if_neg hpq] at hq
    exact h q ls hq

theorem splitLoop_clean (events : List DLEvent) :
    ∀ own lab s, (∀ e ∈ events, isErrEvent e = false) →
      (splitLoop events own lab s).2 = none := by
  induction events with
  | nil => intro own lab s _; rfl
  | cons e rest ih =>
    intro own lab s hclean
    have hcr : ∀ e' ∈ rest, isErrEvent e' = false :=
      fun e' he' => hclean e' (List.mem_cons_of_mem _ he')
    cases e with
    | progress r => rw [splitLoop]; exact ih _ _ _ hcr
    | tryProvider id req => rw [splitLoop]; exact ih _ _ _ hcr
    | providerFailed req => rw [splitLoop]; exact ih _ _ _ hcr
    | partComplete req =>
      rw [splitLoop]
      cases ho : alistLookup own (request_key req) with
      | none => exact ih _ _ _ hcr
      | some provider =>
        rcases hcg : cacheGet lab (request_key req) (describe_request req)
          with ⟨label, lab'⟩
        simp only [hcg]
        exact ih _ _ _ hcr
    | error m =>
      exact absurd (hclean _ (List.mem_cons_self _ _)) (by simp [isErrEvent])
    | downloadError =>
      exact absurd (hclean _ (List.mem_cons_self _ _)) (by simp [isErrEvent])

theorem splitLoop_mem_mono (events : List DLEvent) :
    ∀ own lab s p l ls, alistLookup s.stripe_providers p = some ls → l ∈ ls →
      ∃ ls', alistLookup (splitLoop events own lab s).1.stripe_providers p
        = some ls' ∧ l ∈ ls' := by
  induction events with
  | nil => exact fun own lab s p l ls h hl => ⟨ls, h, hl⟩
  | cons e rest ih =>
    intro own lab s p l ls h hl
    cases e with
    | progress r =>
      rw [splitLoop]
      exact ih _ _ _ p l ls (by rw [applyProgress_sp]; exact h) hl
    | tryProvider id req => rw [splitLoop]; exact ih _ _ _ p l ls h hl
    | providerFailed req => rw [splitLoop]; exact ih _ _ _ p l ls h hl
    | partComplete req =>
      rw [splitLoop]
      cases ho : alistLookup own (request_key req) with
      | none => exact ih _ _ _ p l ls h hl
      | some provider =>
        rcases hcg : cacheGet lab (request_key req) (describe_request req)
          with ⟨label, lab'⟩
        simp only [hcg]
        obtain ⟨ls'', h'', hl''⟩ :=
          lookup_update_mem s.stripe_providers provider label p l ls h hl
        exact ih _ _ _ p l ls'' h'' hl''
    | error m => exact ⟨ls, h, hl⟩
    | downloadError => exact ⟨ls, h, hl⟩

theorem splitLoop_nodupSP (events : List DLEvent) :
    ∀ own lab s, NodupSP s → NodupSP (splitLoop events own lab s).1 := by
  induction events with
  | nil => exact fun own lab s h => h
  | cons e rest ih =>
    intro own lab s h
    cases e with
    | progress r =>
      rw [splitLoop]
      refine ih _ _ _ ?_
      intro q ls hq
      rw [applyProgress_sp] at hq
      exact h q ls hq
    | tryProvider id req => rw [splitLoop]; exact ih _ _ _ h
    | providerFailed req => rw [splitLoop]; exact ih _ _ _ h
    | partComplete req =>
      rw [splitLoop]
      cases ho : alistLookup own (request_key req) with
      | none => exact ih _ _ _ h
      | some provider =>
        rcases hcg : cacheGet lab (request_key req) (describe_request req)
          with ⟨label, lab'⟩
        simp only [hcg]
        exact ih _ _ _ (nodupSP_update s provider label h)
    | error m => exact h
    | downloadError => exact h

theorem completionsOwned_lookup (pre : List DLEvent) :
    ∀ own req post,
      completionsOwned (pre ++ DLEvent.partComplete req :: post) own = true →
      (alistLookup (pre.foldl ownersStep own) (request_key req)).isSome := by
  induction pre with
  | nil =>
    intro own req post h
    rw [List.nil_append] at h
    simp only [completionsOwned, Bool.and_eq_true] at h
    simp only [List.foldl_nil]
    exact h.1
  | cons e rest ih =>
    intro own req post h
    rw [List.cons_append] at h
    rw [List.foldl_cons]
    cases e with
    | progress r =>
      simp only [completionsOwned] at h
      exact ih _ req post h
    | tryProvider id req0 =>
      simp only [completionsOwned] at h
      exact ih _ req post h
    | providerFailed req0 =>
      simp only [completionsOwned] at h
      exact ih _ req post h
    | partComplete req0 =>
      simp only [completionsOwned, Bool.and_eq_true] at h
      exact ih _ req post h.2
    | error m =>
      simp only [completionsOwned] at h
      exact ih _ req post h
    | downloadError =>
      simp only [completionsOwned] at h
      exact ih _ req post h

theorem nodupSP_applyProgress (r : Nat) (s : NodeState) (h : NodupSP s) :
    NodupSP (applyProgress r s) := by
  intro q ls hq
  rw [applyProgress_sp] at hq
  exact h q ls hq

theorem splitLoop_records (full : List DLEvent) (hcoh : labelCoherent full) :
    ∀ (pre : List DLEvent) (req : GetReq) (post : List DLEvent)
      (own lab : List (String × String)) (s : NodeState),
      (pre ++ DLEvent.partComplete req :: post) <:+ full →
      (∀ e ∈ pre ++ DLEvent.partComplete req :: post, isErrEvent e = false) →
      goodLab full lab →
      NodupSP s →
      ∀ p, alistLookup (pre.foldl ownersStep own) (request_key req) = some p →
        ∃ ls, alistLookup (splitLoop (pre ++ DLEvent.partComplete req :: post)
            own lab s).1.stripe_providers p = some ls ∧
          describe_request req ∈ ls ∧ ls.Nodup := by
  intro pre
  induction pre with
  | nil =>
    intro req post own lab s hsuf hclean hlab hnd p hp
    simp only [List.foldl_nil] at hp
    simp only [List.nil_append] at hsuf ⊢
    have hreqfull : req ∈ requestsOf full := by
      refine mem_requestsOf_partComplete full req ?_
      exact hsuf.subset (List.mem_cons_self _ _)
    rw [splitLoop]
    rw [hp]
    rcases hcg : cacheGet lab (request_key req) (describe_request req)
      with ⟨label, lab'⟩
    simp only [hcg]
    have hlabel : label = describe_request req := by
      have := cacheGet_label full lab req hreqfull hlab
      rw [hcg] at this
      exact this
    subst hlabel
    have hstart : ∃ ls0, alistLookup (alistUpdate s.stripe_providers p
        (fun ls => pushLabel ls (describe_request req))) p = some ls0 ∧
        describe_request req ∈ ls0 := by
      rw [alistLookup_update, if_pos rfl]
      exact ⟨_, rfl, pushLabel_mem_self _ _⟩
    obtain ⟨ls0, hls0, hmem0⟩ := hstart
    obtain ⟨ls1, hls1, hmem1⟩ := splitLoop_mem_mono post own lab'
      { s with
        stripe_providers :=
          alistUpdate s.stripe_providers p
            (fun ls => pushLabel ls (describe_request req)) } p
      (describe_request req) ls0 hls0 hmem0
    refine ⟨ls1, hls1, hmem1, ?_⟩
    have hndf : NodupSP (splitLoop post own lab'
        { s with
          stripe_providers :=
            alistUpdate s.stripe_providers p
              (fun ls => pushLabel ls (describe_request req)) }).1 :=
      splitLoop_nodupSP post own lab' _
        (nodupSP_update s p (describe_request req) hnd)
    exact hndf p ls1 hls1
  | cons e pre' ih =>
    intro req post own lab s hsuf hclean hlab hnd p hp
    have hsuf' : (pre' ++ DLEvent.partComplete req :: post) <:+ full :=
      (List.suffix_cons e _).trans hsuf
    have hclean' : ∀ e' ∈ pre' ++ DLEvent.partComplete req :: post,
        isErrEvent e' = false := by
      intro e' he'
      refine hclean e' ?_
      rw [List.cons_append]
      exact List.mem_cons_of_mem _ he'
    rw [List.foldl_cons] at hp
    rw [List.cons_append]
    cases e with
    | progress r =>
      rw [splitLoop]
      exact ih req post (ownersStep own (DLEvent.progress r)) lab
        (applyProgress r s) hsuf' hclean' hlab
        (nodupSP_applyProgress r s hnd) p hp
    | tryProvider id r0 =>
      rw [splitLoop]
      have hr0full : r0 ∈ requestsOf full := by
        refine mem_requestsOf_tryProvider full id r0 ?_
        refine hsuf.subset ?_
        rw [List.cons_append]
        exact List.mem_cons_self _ _
      exact ih req post (ownersStep own (DLEvent.tryProvider id r0))
        (alistOrInsert lab (request_key r0) (describe_request r0)) s hsuf'
        hclean' (goodLab_orInsert full lab r0 hcoh hr0full hlab) hnd p hp
    | providerFailed r0 =>
      rw [splitLoop]
      exact ih req post (ownersStep own (DLEvent.providerFailed r0)) lab s
        hsuf' hclean' hlab hnd p hp
    | partComplete r0 =>
      rw [splitLoop]
      have hr0full : r0 ∈ requestsOf full := by
        refine mem_requestsOf_partComplete full r0 ?_
        refine hsuf.subset ?_
        rw [List.cons_append]
        exact List.mem_cons_self _ _
      cases ho : alistLookup own (request_key r0) with
      | none =>
        exact ih req post (ownersStep own (DLEvent.partComplete r0)) lab s
          hsuf' hclean' hlab hnd p hp
      | some provider =>
        rcases hcg : cacheGet lab (request_key r0) (describe_request r0)
          with ⟨label, lab'⟩
        simp only [hcg]
        have hlab' : goodLab full lab' := by
          have := goodLab_cacheGet full lab r0 hcoh hr0full hlab
          rw [hcg] at this
          exact this
        exact ih req post (ownersStep own (DLEvent.partComplete r0)) lab'
          { s with
            stripe_providers :=
              alistUpdate s.stripe_providers provider
                (fun ls => pushLabel ls label) } hsuf' hclean' hlab'
          (nodupSP_update s provider label hnd) p hp
    | error m =>
      exfalso
      have := hclean (DLEvent.error m) (by rw [List.cons_append]; exact List.mem_cons_self _ _)
      simp [isErrEvent] at this
    | downloadError =>
      exfalso
      have := hclean DLEvent.downloadError (by rw [List.cons_append]; exact List.mem_cons_self _ _)
      simp [isErrEvent] at this

/-- C1: during a split download over a non-empty candidate set, each
sub-request completion is attributed to the provider currently recorded as
the owner of that sub-request (the most recent assignment, with ownership
removed on a provider-failure event). For a fully successful split attempt
(no terminal event, every completion owned, successful export; label
coherence reflects that key and description are both functions of the
request's range set), the resulting contribution map records every
completed sub-request's label exactly once under the provider that held
its assignment at completion time. -/
theorem c1_split_attribution (selfId hash filename content_type : String)
    (providers : List String) (events : List DLEvent) (s : NodeState)
    (hprov : providers.isEmpty = false)
    (hsp0 : s.stripe_providers = [])
    (hclean : ∀ e ∈ events, isErrEvent e = false)
    (howned : completionsOwned events [] = true)
    (hcoh : labelCoherent events) :
    (attempt_split_download selfId hash filename content_type providers
      (.ok events) true s).err = none ∧
    ∀ pre req post, events = pre ++ DLEvent.partComplete req :: post →
      ∃ p, alistLookup (ownersAfter pre) (request_key req) = some p ∧
        ∃ ls, alistLookup (attempt_split_download selfId hash filename
            content_type providers (.ok events) true
            s).state.stripe_providers p = some ls ∧
          describe_request req ∈ ls ∧
          ls.count (describe_request req) = 1 := by
  rcases hsl : splitLoop events [] [] s with ⟨s', errL⟩
  have herrL : errL = none := by
    have := splitLoop_clean events [] [] s hclean
    rw [hsl] at this
    simpa using this
  subst herrL
  have hattempt := attempt_split_exportTrue selfId hash filename content_type
    providers s s' events hprov hsl
  constructor
  · rw [hattempt]
  · intro pre req post hdec
    have hps : (alistLookup (pre.foldl ownersStep [])
        (request_key req)).isSome :=
      completionsOwned_lookup pre [] req post (hdec ▸ howned)
    obtain ⟨p, hp⟩ := Option.isSome_iff_exists.mp hps
    refine ⟨p, hp, ?_⟩
    have hnd0 : NodupSP s := by
      intro q ls hq
      rw [hsp0] at hq
      simp [alistLookup] at hq
    have hlab0 : goodLab events [] := by
      intro key l hl
      simp [alistLookup] at hl
    obtain ⟨ls, hls, hmem, hnd⟩ := splitLoop_records events hcoh pre req post
      [] [] s (by rw [← hdec]) (by rw [← hdec]; exact hclean) hlab0 hnd0 p hp
    rw [← hdec, hsl] at hls
    simp only at hls
    rw [hattempt]
    simp only [splitSuccessUpdate]
    rw [alistLookup_update]
    by_cases hselfp : selfId = p
    · rw [if_pos hselfp]
      subst hselfp
      rw [hls]
      simp only [Option.getD_some]
      refine ⟨_, rfl, pushLabel_mem_of _ _ _ hmem, ?_⟩
      exact List.count_eq_one_of_mem (pushLabel_nodup ls "all" hnd)
        (pushLabel_mem_of _ _ _ hmem)
    · rw [if_neg hselfp]
      exact ⟨ls, hls, hmem, List.count_eq_one_of_mem hnd hmem⟩

/-- The split-stream events used by the C1 witness: two sub-requests, each
assigned once and completed once. -/
def c1events : List DLEvent :=
  [DLEvent.tryProvider "P1" sampleReq1, DLEvent.tryProvider "P2" sampleReq2,
   DLEvent.partComplete sampleReq1, DLEvent.partComplete sampleReq2]

/-- Witness for C1: Scenario A — two providers each complete their
sub-request; the second completion is attributed to P2. -/
theorem c1_split_attribution_witness :
    (["P1", "P2"] : List String).isEmpty = false ∧
    completionsOwned c1events [] = true ∧
    labelCoherent c1events ∧
    (attempt_split_download "selfnode" "hashA" "f" "ct" ["P1", "P2"]
      (.ok c1events) true sampleState).err = none ∧
    ∃ p, alistLookup (ownersAfter [DLEvent.tryProvider "P1" sampleReq1,
        DLEvent.tryProvider "P2" sampleReq2,
        DLEvent.partComplete sampleReq1]) (request_key sampleReq2) = some p ∧
      ∃ ls, alistLookup (attempt_split_download "selfnode" "hashA" "f" "ct"
          ["P1", "P2"] (.ok c1events) true
          sampleState).state.stripe_providers p = some ls ∧
        describe_request sampleReq2 ∈ ls ∧
        ls.count (describe_request sampleReq2) = 1 := by
  have h := c1_split_attribution "selfnode" "hashA" "f" "ct" ["P1", "P2"]
    c1events sampleState (by decide) rfl (by decide) (by decide) (by decide)
  exact ⟨by decide, by decide, by decide, h.1,
    h.2 [DLEvent.tryProvider "P1" sampleReq1,
      DLEvent.tryProvider "P2" sampleReq2, DLEvent.partComplete sampleReq1]
      sampleReq2 [] rfl⟩

end P2PNode
